import Mathlib

/-! # The self-describing gogoprotobuf codec (`codec/gogoprotobuf_codec.go`)

A shallow embedding of `GoGoProtobufCodec`: the three registry maps, `RegisterMessage`,
`Marshal` and `Unmarshal`, together with the small part of Go's `reflect`, `bytes` and
`encoding/binary` packages those functions call.  The protobuf library itself is an
external collaborator and enters as a parameter (`ProtoLib`).

Conventions
* a `uint8` (`messageType`, a byte of a frame) is a `Nat`; the only conversion that can
  overflow, `messageType(len(...))`, is written with an explicit `% 256`;
* a Go call either returns or panics: `Outcome`;
* a Go result pair `(x, err)` is a pair of options, `none` standing for `nil`.
-/

namespace Codec

/-! ## Go types and values, as `reflect` sees them -/

/-- A `reflect.Type`: either a type that is not a pointer (a struct, an int, ...), known
by an identifier, or the pointer type `*elem`. -/
inductive GoType where
  | named (id : Nat)
  | ptr (elem : GoType)
  deriving DecidableEq, Repr

/-- A Go value that can sit in an `interface{}`: an instance of a non-pointer type with
its field contents, a nil pointer of type `*elem`, or a non-nil pointer to a value. -/
inductive GoValue where
  | data (t : Nat) (fields : List Nat)
  | nilptr (elem : GoType)
  | addr (target : GoValue)
  deriving DecidableEq, Repr

/-- The dynamic type of a value. -/
def GoValue.typeOf : GoValue → GoType
  | .data t _ => .named t
  | .nilptr e => .ptr e
  | .addr v => .ptr v.typeOf

/-- An `interface{}` argument; `none` is the untyped nil. -/
abbrev Iface := Option GoValue

/-- A `reflect.Value`; `none` is the zero Value. -/
abbrev Value := Option GoValue

/-- The kinds the codec distinguishes. -/
inductive Kind where
  | Invalid
  | Ptr
  | Other
  deriving DecidableEq, Repr

/-- The ways the codec can abort. -/
inductive Panic where
  /-- `reflect: call of reflect.Value.Type on zero Value` -/
  | typeOnZeroValue
  /-- `reflect: call of reflect.Value.Elem on` a value that is not a pointer -/
  | elemOnNonPointer
  /-- `reflect: New(nil)` -/
  | newNilType
  /-- a failed type assertion `x.(proto.Message)` -/
  | interfaceConversion
  deriving DecidableEq, Repr

/-- A Go call returns a result or panics. -/
inductive Outcome (α : Type) where
  | ret (a : α)
  | panic (p : Panic)
  deriving DecidableEq, Repr

/-- Sequencing of calls that may panic. -/
def Outcome.bind {α β : Type} (x : Outcome α) (f : α → Outcome β) : Outcome β :=
  match x with
  | .ret a => f a
  | .panic p => .panic p

/-- `reflect.ValueOf` -/
def ValueOf (i : Iface) : Value := i

/-- `reflect.TypeOf`; `none` is the nil `reflect.Type` of the nil interface. -/
def TypeOf (i : Iface) : Option GoType := i.map GoValue.typeOf

/-- `reflect.Value.Kind` -/
def Value.Kind : Value → Kind
  | none => .Invalid
  | some (.data _ _) => .Other
  | some (.nilptr _) => .Ptr
  | some (.addr _) => .Ptr

/-- `reflect.Value.Type`: panics on the zero Value. -/
def Value.Type : Value → Outcome GoType
  | none => .panic .typeOnZeroValue
  | some v => .ret v.typeOf

/-- `reflect.Value.Elem`: the pointee of a pointer, the zero Value for a nil pointer,
a panic for anything that is not a pointer. -/
def Value.Elem : Value → Outcome Value
  | some (.addr v) => .ret (some v)
  | some (.nilptr _) => .ret none
  | some (.data _ _) => .panic .elemOnNonPointer
  | none => .panic .elemOnNonPointer

/-- `reflect.Indirect` -/
def Indirect (v : Value) : Outcome Value :=
  if v.Kind ≠ .Ptr then .ret v else v.Elem

/-- `reflect.PtrTo` -/
def PtrTo (t : GoType) : GoType := .ptr t

/-- The zero value of a type. -/
def zeroValue : GoType → GoValue
  | .named t => .data t []
  | .ptr e => .nilptr e

/-- `reflect.New(t).Interface()`: a pointer to a fresh zero value of `t`; panics on the
nil type. -/
def New : Option GoType → Outcome GoValue
  | none => .panic .newNilType
  | some t => .ret (.addr (zeroValue t))

/-! ## Go maps -/

/-- A Go map as an association list; a lookup takes the first entry for the key and a
store drops every older entry for it, so a map built by stores has one entry per key. -/
structure GoMap (κ ν : Type) where
  entries : List (κ × ν)
  deriving DecidableEq, Repr

/-- `make(map[κ]ν)` -/
def GoMap.make {κ ν : Type} : GoMap κ ν := ⟨[]⟩

/-- `v, ok := m[k]` -/
def GoMap.lookup {κ ν : Type} [DecidableEq κ] (m : GoMap κ ν) (k : κ) : Option ν :=
  match m.entries.find? (fun e => decide (e.1 = k)) with
  | some e => some e.2
  | none => none

/-- `m[k] = v` -/
def GoMap.store {κ ν : Type} [DecidableEq κ] (m : GoMap κ ν) (k : κ) (v : ν) : GoMap κ ν :=
  ⟨(k, v) :: m.entries.filter (fun e => !decide (e.1 = k))⟩

/-- `len(m)` -/
def GoMap.len {κ ν : Type} (m : GoMap κ ν) : Nat := m.entries.length

/-! ## The protobuf library -/

/-- The external serialization library and the program's message declarations.
`valueRecv t` says that the type `t` declares the `proto.Message` methods on value
receivers, `ptrRecv t` that it declares them on pointer receivers.  `Marshal` is
`proto.Marshal`; `Unmarshal buf pb` is `proto.Unmarshal(buf, pb)`, returning the field
contents it leaves in `*pb`. -/
structure ProtoLib where
  valueRecv : Nat → Bool
  ptrRecv : Nat → Bool
  Marshal : GoValue → Except String (List Nat)
  Unmarshal : List Nat → GoValue → Except String (List Nat)

/-- Whether a dynamic type has `proto.Message` in its method set: a non-pointer type has
the methods declared on value receivers, `*T` has those of `T` and those declared on
pointer receivers, and a pointer to a pointer has none. -/
def ProtoLib.implements (P : ProtoLib) : GoType → Bool
  | .named t => P.valueRecv t
  | .ptr (.named t) => P.valueRecv t || P.ptrRecv t
  | .ptr (.ptr _) => false

/-- The test of `_, ok := msg.(proto.Message)`; the nil interface fails it. -/
def ProtoLib.isMessage (P : ProtoLib) : Iface → Bool
  | none => false
  | some v => P.implements v.typeOf

/-- Storing field contents through a message handle; only a non-nil pointer to an
instance has somewhere to store them. -/
def setFields : GoValue → List Nat → GoValue
  | .addr (.data t _), f => .addr (.data t f)
  | v, _ => v

/-- The effect of `proto.Unmarshal(buf, pb)` on the message behind `pb`. -/
def protoUnmarshal (P : ProtoLib) (buf : List Nat) (pb : GoValue) : Except String GoValue :=
  match P.Unmarshal buf pb with
  | .error e => .error e
  | .ok f => .ok (setFields pb f)

/-! ## The codec -/

/-- The errors the codec returns. -/
inductive Err where
  /-- `Message type %v is already registered` -/
  | alreadyRegistered (t : GoType)
  /-- `Not a protobuf message %v` -/
  | notProtobuf (t : GoType)
  /-- `Unknown message type: %v` -/
  | unknownType (t : GoType)
  /-- `io.EOF`, from `binary.Read` on an exhausted buffer -/
  | eof
  /-- an error of `proto.Marshal` or `proto.Unmarshal`, passed on as it is -/
  | proto (e : String)
  deriving DecidableEq, Repr

/-- `messageType(n)`: the conversion of an `int` to the `uint8` tag type. -/
def messageType (n : Nat) : Nat := n % 256

/-- `GoGoProtobufCodec` -/
structure GoGoProtobufCodec where
  registeredMessages : GoMap GoType Nat
  reversedMap : GoMap Nat GoType
  registeredMessagePtrs : GoMap GoType Nat
  deriving DecidableEq, Repr

/-- `NewGoGoProtobufCodec` -/
def NewGoGoProtobufCodec : GoGoProtobufCodec :=
  { registeredMessages := GoMap.make
    reversedMap := GoMap.make
    registeredMessagePtrs := GoMap.make }

/-- The first statement group of `RegisterMessage`: the concrete type and the pointer
type of the argument. -/
def registeredTypes (msg : Iface) : Outcome (GoType × GoType) :=
  let msgTypeValue := ValueOf msg
  if msgTypeValue.Kind = .Ptr then
    (Indirect msgTypeValue).bind fun e =>
    (Value.Type e).bind fun concreteType =>
    (Value.Type msgTypeValue).bind fun ptrType =>
    .ret (concreteType, ptrType)
  else
    (Value.Type msgTypeValue).bind fun concreteType =>
    .ret (concreteType, PtrTo concreteType)

/-- `RegisterMessage`: the codec after the call and the error returned. -/
def RegisterMessage (P : ProtoLib) (c : GoGoProtobufCodec) (msg : Iface) :
    Outcome (GoGoProtobufCodec × Option Err) :=
  (registeredTypes msg).bind fun (concreteType, ptrType) =>
  if (c.registeredMessages.lookup concreteType).isSome then
    .ret (c, some (.alreadyRegistered concreteType))
  else if !P.isMessage msg then
    .ret (c, some (.notProtobuf concreteType))
  else
    let mtype := messageType c.registeredMessages.len
    .ret ({ registeredMessages := c.registeredMessages.store concreteType mtype
            reversedMap := c.reversedMap.store mtype concreteType
            registeredMessagePtrs := c.registeredMessagePtrs.store ptrType mtype }, none)

/-- `binary.Write(buf, binary.LittleEndian, mtype)` for the one-byte tag. -/
def binaryWrite (buf : List Nat) (mtype : Nat) : List Nat := buf ++ [mtype]

/-- `bytes.Buffer.Write` -/
def bufferWrite (buf : List Nat) (b : List Nat) : List Nat := buf ++ b

/-- `binary.Read(buf, binary.LittleEndian, &mtype)` for the one-byte tag: the tag and
the unread rest of the buffer, or `io.EOF`. -/
def binaryRead : List Nat → Except Err (Nat × List Nat)
  | [] => .error .eof
  | b :: rest => .ok (b, rest)

/-- `Marshal`: the pair `([]byte, error)` returned. -/
def Marshal (P : ProtoLib) (c : GoGoProtobufCodec) (msg : Iface) :
    Outcome (Option (List Nat) × Option Err) :=
  match (TypeOf msg).bind c.registeredMessagePtrs.lookup with
  | none =>
    (Value.Elem (ValueOf msg)).bind fun e =>
    (Value.Type e).bind fun t =>
    .ret (none, some (.unknownType t))
  | some mtype =>
    match msg with
    | none => .panic .interfaceConversion
    | some v =>
      if P.implements v.typeOf then
        match P.Marshal v with
        | .error e => .ret (none, some (.proto e))
        | .ok b => .ret (some (bufferWrite (binaryWrite [] mtype) b), none)
      else .panic .interfaceConversion

/-- `Unmarshal`: the pair `(interface{}, error)` returned. -/
def Unmarshal (P : ProtoLib) (c : GoGoProtobufCodec) (data : List Nat) :
    Outcome (Iface × Option Err) :=
  match binaryRead data with
  | .error e => .ret (none, some e)
  | .ok (mtype, rest) =>
    (New (c.reversedMap.lookup mtype)).bind fun msg =>
    if P.implements msg.typeOf then
      match protoUnmarshal P rest msg with
      | .error e => .ret (none, some (.proto e))
      | .ok m => .ret (some m, none)
    else .panic .interfaceConversion

/-! ## Sequences of registrations -/

/-- One `RegisterMessage` call in a run, with the count of successful calls so far.  A
call that panics has stored nothing, so the codec is as it was. -/
def registerStep (P : ProtoLib) (s : GoGoProtobufCodec × Nat) (msg : Iface) :
    GoGoProtobufCodec × Nat :=
  match RegisterMessage P s.1 msg with
  | .ret (c, none) => (c, s.2 + 1)
  | .ret (c, some _) => (c, s.2)
  | .panic _ => s

/-- The codec reached from the fresh codec by a sequence of `RegisterMessage` calls, and
the number of those calls that succeeded. -/
def registerAll (P : ProtoLib) (msgs : List Iface) : GoGoProtobufCodec × Nat :=
  msgs.foldl (registerStep P) (NewGoGoProtobufCodec, 0)

/-! ## A sample library and sample messages -/

/-- A library whose wire form of a message is its list of fields, for messages declared
on pointer receivers. -/
def fieldsLib : ProtoLib :=
  { valueRecv := fun _ => false
    ptrRecv := fun _ => true
    Marshal := fun v =>
      match v with
      | .addr (.data _ f) => .ok f
      | _ => .error "proto: Marshal called with nil"
    Unmarshal := fun buf _ => .ok buf }

/-- The same library for messages declared on value receivers. -/
def valueLib : ProtoLib :=
  { valueRecv := fun _ => true
    ptrRecv := fun _ => false
    Marshal := fieldsLib.Marshal
    Unmarshal := fieldsLib.Unmarshal }

/-- The same library for a program that declares no message type. -/
def plainLib : ProtoLib :=
  { valueRecv := fun _ => false
    ptrRecv := fun _ => false
    Marshal := fieldsLib.Marshal
    Unmarshal := fieldsLib.Unmarshal }

/-- A handle to an instance of type `t` with the given fields. -/
def handle (t : Nat) (f : List Nat) : Iface := some (.addr (.data t f))

/-- The codec with the types 0, 1 and 2 registered in that order. -/
def threeTypes : GoGoProtobufCodec :=
  (registerAll fieldsLib [handle 0 [], handle 1 [], handle 2 []]).1

/-- Handles of the 256 types 0, ..., 255, in that order. -/
def fullRun : List Iface := (List.range 256).map fun t => handle t []

/-! ## Marshal and Unmarshal as methods on the codec -/

/-- A method with the receiver `c *GoGoProtobufCodec`: from the codec before the call,
the codec after it and the outcome of the call. -/
abbrev Method (α : Type) := GoGoProtobufCodec → GoGoProtobufCodec × Outcome α

/-- A computation that does not touch the receiver. -/
def Method.lift {α : Type} (o : Outcome α) : Method α := fun c => (c, o)

/-- Sequencing of steps of a method; a panic ends the call with the codec as it is. -/
def Method.bind {α β : Type} (x : Method α) (f : α → Method β) : Method β :=
  fun c =>
    match x c with
    | (c1, .ret a) => f a c1
    | (c1, .panic p) => (c1, .panic p)

/-- The read `c.registeredMessagePtrs[k]`; the nil type is no key. -/
def readMessagePtrs (k : Option GoType) : Method (Option Nat) :=
  fun c => (c, .ret (k.bind c.registeredMessagePtrs.lookup))

/-- The read `c.reversedMap[k]`. -/
def readReversedMap (k : Nat) : Method (Option GoType) :=
  fun c => (c, .ret (c.reversedMap.lookup k))

/-- `Marshal`, statement by statement, with the codec threaded through. -/
def MarshalMethod (P : ProtoLib) (msg : Iface) : Method (Option (List Nat) × Option Err) :=
  (readMessagePtrs (TypeOf msg)).bind fun r =>
  match r with
  | none =>
    Method.lift <|
      (Value.Elem (ValueOf msg)).bind fun e =>
      (Value.Type e).bind fun t =>
      .ret (none, some (.unknownType t))
  | some mtype =>
    match msg with
    | none => Method.lift (.panic .interfaceConversion)
    | some v =>
      if P.implements v.typeOf then
        match P.Marshal v with
        | .error e => Method.lift (.ret (none, some (.proto e)))
        | .ok b => Method.lift (.ret (some (bufferWrite (binaryWrite [] mtype) b), none))
      else Method.lift (.panic .interfaceConversion)

/-- `Unmarshal`, statement by statement, with the codec threaded through. -/
def UnmarshalMethod (P : ProtoLib) (data : List Nat) : Method (Iface × Option Err) :=
  match binaryRead data with
  | .error e => Method.lift (.ret (none, some e))
  | .ok (mtype, rest) =>
    (readReversedMap mtype).bind fun T =>
    (Method.lift (New T)).bind fun msg =>
    if P.implements msg.typeOf then
      match protoUnmarshal P rest msg with
      | .error e => Method.lift (.ret (none, some (.proto e)))
      | .ok m => Method.lift (.ret (some m, none))
    else Method.lift (.panic .interfaceConversion)

/-! ## The registry invariant -/

/-- The type a message is registered under: its dynamic type, with the pointer removed
when the message is a handle. -/
def concreteTypeOf (v : GoValue) : GoType :=
  match v.typeOf with
  | .ptr e => e
  | t => t

/-- What holds of a codec after a run of registrations with `n` successes: one entry per
registered type, the tags in order of registration, the handle map a copy of the type
map under `*T`, the reversed map its mirror image while no tag has been reused, and
every registered handle type a `proto.Message`. -/
structure RegistryInv (P : ProtoLib) (c : GoGoProtobufCodec) (n : Nat) : Prop where
  keys : (c.registeredMessages.entries.map Prod.fst).Nodup
  tags : c.registeredMessages.entries.map Prod.snd = ((List.range n).map messageType).reverse
  ptrs : c.registeredMessagePtrs.entries
    = c.registeredMessages.entries.map fun e => (GoType.ptr e.1, e.2)
  rev : n ≤ 256 → c.reversedMap.entries = c.registeredMessages.entries.map Prod.swap
  impl : ∀ e ∈ c.registeredMessages.entries, P.implements (.ptr e.1) = true

/-! ## Lemmas on Go maps -/

section GoMapLemmas

variable {κ ν : Type} [DecidableEq κ]

theorem GoMap.lookup_nil (k : κ) : (⟨[]⟩ : GoMap κ ν).lookup k = none := rfl

theorem GoMap.lookup_cons (k k0 : κ) (v0 : ν) (l : List (κ × ν)) :
    (⟨(k0, v0) :: l⟩ : GoMap κ ν).lookup k
      = if k0 = k then some v0 else (⟨l⟩ : GoMap κ ν).lookup k := by
  by_cases h : k0 = k <;> simp [GoMap.lookup, List.find?, h]

theorem GoMap.lookup_eq_none_iff (m : GoMap κ ν) (k : κ) :
    m.lookup k = none ↔ ∀ e ∈ m.entries, e.1 ≠ k := by
  obtain ⟨l⟩ := m
  induction l with
  | nil => simp [GoMap.lookup_nil]
  | cons e l ih =>
    obtain ⟨k0, v0⟩ := e
    rw [GoMap.lookup_cons]
    by_cases h : k0 = k
    · simp [h]
    · simpa [h] using ih

theorem GoMap.mem_of_lookup (m : GoMap κ ν) (k : κ) (v : ν) (h : m.lookup k = some v) :
    (k, v) ∈ m.entries := by
  obtain ⟨l⟩ := m
  induction l with
  | nil => simp [GoMap.lookup_nil] at h
  | cons e l ih =>
    obtain ⟨k0, v0⟩ := e
    rw [GoMap.lookup_cons] at h
    by_cases hk : k0 = k
    · simp [hk] at h
      simp [hk, h]
    · simp [hk] at h
      exact List.mem_cons_of_mem _ (ih h)

theorem GoMap.lookup_of_mem (m : GoMap κ ν) (k : κ) (v : ν)
    (hnd : (m.entries.map Prod.fst).Nodup) (h : (k, v) ∈ m.entries) :
    m.lookup k = some v := by
  obtain ⟨l⟩ := m
  induction l with
  | nil => simp at h
  | cons e l ih =>
    obtain ⟨k0, v0⟩ := e
    rw [GoMap.lookup_cons]
    simp only [List.map_cons, List.nodup_cons] at hnd
    rcases List.mem_cons.1 h with h1 | h1
    · cases h1
      simp
    · have hne : k0 ≠ k := by
        rintro rfl
        exact hnd.1 (List.mem_map_of_mem Prod.fst h1)
      simpa [hne] using ih hnd.2 h1

theorem GoMap.lookup_store_self (m : GoMap κ ν) (k : κ) (v : ν) :
    (m.store k v).lookup k = some v := by
  simp [GoMap.store, GoMap.lookup_cons]

theorem GoMap.lookup_filter_ne (l : List (κ × ν)) (k k1 : κ) (h : k1 ≠ k) :
    (⟨l.filter (fun e => !decide (e.1 = k))⟩ : GoMap κ ν).lookup k1
      = (⟨l⟩ : GoMap κ ν).lookup k1 := by
  induction l with
  | nil => rfl
  | cons e l ih =>
    obtain ⟨k0, v0⟩ := e
    by_cases hk : k0 = k
    · have h0 : k ≠ k1 := fun h2 => h h2.symm
      simp [List.filter, hk, GoMap.lookup_cons, h0, ih]
    · simp [List.filter, hk, GoMap.lookup_cons, ih]

theorem GoMap.lookup_store_ne (m : GoMap κ ν) (k k1 : κ) (v : ν) (h : k1 ≠ k) :
    (m.store k v).lookup k1 = m.lookup k1 := by
  obtain ⟨l⟩ := m
  have h0 : k ≠ k1 := fun h2 => h h2.symm
  simp [GoMap.store, GoMap.lookup_cons, h0]
  exact GoMap.lookup_filter_ne l k k1 h

theorem GoMap.store_entries_of_absent (m : GoMap κ ν) (k : κ) (v : ν)
    (h : m.lookup k = none) : (m.store k v).entries = (k, v) :: m.entries := by
  have h1 := (GoMap.lookup_eq_none_iff m k).1 h
  simp only [GoMap.store, List.cons.injEq, true_and]
  rw [List.filter_eq_self]
  intro e he
  simpa using h1 e he

end GoMapLemmas

/-! ## What a registration does -/

theorem registeredTypes_some (v : GoValue) (ct pt : GoType)
    (h : registeredTypes (some v) = .ret (ct, pt)) :
    ct = concreteTypeOf v ∧ pt = .ptr (concreteTypeOf v) := by
  cases v with
  | data t f =>
    simp [registeredTypes, ValueOf, Value.Kind, Value.Type, Outcome.bind, PtrTo,
      GoValue.typeOf] at h
    simp [concreteTypeOf, GoValue.typeOf, h.1.symm, h.2.symm]
  | nilptr e =>
    simp [registeredTypes, ValueOf, Value.Kind, Value.Type, Outcome.bind, Indirect,
      Value.Elem] at h
  | addr w =>
    simp [registeredTypes, ValueOf, Value.Kind, Value.Type, Outcome.bind, Indirect,
      Value.Elem, GoValue.typeOf] at h
    simp [concreteTypeOf, GoValue.typeOf, h.1.symm, h.2.symm]

theorem implements_ptr_concrete (P : ProtoLib) (v : GoValue)
    (hv : v.typeOf = concreteTypeOf v ∨ v.typeOf = .ptr (concreteTypeOf v))
    (h : P.implements v.typeOf = true) : P.implements (.ptr (concreteTypeOf v)) = true := by
  cases v with
  | data t f =>
    simp [concreteTypeOf, GoValue.typeOf, ProtoLib.implements] at h ⊢
    exact Or.inl h
  | nilptr e => simpa [concreteTypeOf, GoValue.typeOf] using h
  | addr w => simpa [concreteTypeOf, GoValue.typeOf] using h

/-- A successful registration: the argument is a non-nil message of a type not yet
registered whose handle type is a `proto.Message`, and the three stores are made. -/
theorem RegisterMessage_ok (P : ProtoLib) (c c1 : GoGoProtobufCodec) (msg : Iface)
    (h : RegisterMessage P c msg = .ret (c1, none)) :
    ∃ v, msg = some v ∧ c.registeredMessages.lookup (concreteTypeOf v) = none ∧
      P.implements (.ptr (concreteTypeOf v)) = true ∧
      c1 = { registeredMessages :=
               c.registeredMessages.store (concreteTypeOf v) (messageType c.registeredMessages.len)
             reversedMap :=
               c.reversedMap.store (messageType c.registeredMessages.len) (concreteTypeOf v)
             registeredMessagePtrs :=
               c.registeredMessagePtrs.store (.ptr (concreteTypeOf v))
                 (messageType c.registeredMessages.len) } := by
  cases msg with
  | none => simp [RegisterMessage, registeredTypes, ValueOf, Value.Kind, Value.Type,
      Outcome.bind] at h
  | some v =>
    refine ⟨v, rfl, ?_⟩
    unfold RegisterMessage at h
    cases hr : registeredTypes (some v) with
    | panic p => simp [hr, Outcome.bind] at h
    | ret r =>
      obtain ⟨ct, pt⟩ := r
      obtain ⟨h1, h2⟩ := registeredTypes_some v ct pt hr
      subst h1 h2
      simp only [hr, Outcome.bind] at h
      by_cases hl : (c.registeredMessages.lookup (concreteTypeOf v)).isSome = true
      · simp [hl] at h
      · by_cases hm : P.isMessage (some v) = true
        · have hl1 : c.registeredMessages.lookup (concreteTypeOf v) = none := by
            simpa using hl
          simp [hl1, hm] at h
          refine ⟨hl1, ?_, h.symm⟩
          have hv : v.typeOf = concreteTypeOf v ∨ v.typeOf = .ptr (concreteTypeOf v) := by
            cases v <;> simp [concreteTypeOf, GoValue.typeOf]
          exact implements_ptr_concrete P v hv hm
        · simp [hl, hm] at h

/-- A registration that returns an error has stored nothing. -/
theorem RegisterMessage_err (P : ProtoLib) (c c1 : GoGoProtobufCodec) (msg : Iface) (e : Err)
    (h : RegisterMessage P c msg = .ret (c1, some e)) : c1 = c := by
  unfold RegisterMessage at h
  cases hr : registeredTypes msg with
  | panic p => simp [hr, Outcome.bind] at h
  | ret r =>
    obtain ⟨ct, pt⟩ := r
    simp only [hr, Outcome.bind] at h
    by_cases hl : (c.registeredMessages.lookup ct).isSome = true
    · simp [hl] at h
      exact h.1.symm
    · by_cases hm : P.isMessage msg = true
      · simp [hl, hm] at h
      · simp [hl, hm] at h
        exact h.1.symm

/-! ## The invariant holds along every run of registrations -/

theorem RegistryInv.fresh (P : ProtoLib) : RegistryInv P NewGoGoProtobufCodec 0 := by
  refine ⟨?_, ?_, ?_, ?_, ?_⟩ <;> simp [NewGoGoProtobufCodec, GoMap.make]

theorem RegistryInv.len_eq {P : ProtoLib} {c : GoGoProtobufCodec} {n : Nat}
    (h : RegistryInv P c n) : c.registeredMessages.len = n := by
  have h1 := congrArg List.length h.tags
  simpa [GoMap.len] using h1

theorem RegistryInv.tag_mem {P : ProtoLib} {c : GoGoProtobufCodec} {n : Nat}
    (h : RegistryInv P c n) (e : GoType × Nat) (he : e ∈ c.registeredMessages.entries) :
    ∃ i, i < n ∧ messageType i = e.2 := by
  have h1 : e.2 ∈ c.registeredMessages.entries.map Prod.snd := List.mem_map_of_mem _ he
  rw [h.tags] at h1
  simpa using h1

theorem messageType_of_lt (i : Nat) (h : i < 256) : messageType i = i := by
  simp [messageType, Nat.mod_eq_of_lt h]

theorem messageType_lt (i : Nat) : messageType i < 256 := by
  simp only [messageType]
  omega

theorem RegistryInv.step {P : ProtoLib} {c c1 : GoGoProtobufCodec} {n : Nat} {msg : Iface}
    (h : RegistryInv P c n) (hr : RegisterMessage P c msg = .ret (c1, none)) :
    RegistryInv P c1 (n + 1) := by
  obtain ⟨v, -, hnew, himpl, rfl⟩ := RegisterMessage_ok P c c1 msg hr
  have hlen := h.len_eq
  have hnewP : c.registeredMessagePtrs.lookup (.ptr (concreteTypeOf v)) = none := by
    rw [GoMap.lookup_eq_none_iff, h.ptrs]
    intro e he
    obtain ⟨e0, he0, rfl⟩ := List.mem_map.1 he
    have h0 := (GoMap.lookup_eq_none_iff _ _).1 hnew e0 he0
    simpa using h0
  have e1 := GoMap.store_entries_of_absent _ _ (messageType c.registeredMessages.len) hnew
  have e2 := GoMap.store_entries_of_absent _ _ (messageType c.registeredMessages.len) hnewP
  refine ⟨?_, ?_, ?_, ?_, ?_⟩
  · simp only [e1, List.map_cons, List.nodup_cons]
    refine ⟨?_, h.keys⟩
    intro hm
    obtain ⟨e0, he0, hk⟩ := List.mem_map.1 hm
    exact (GoMap.lookup_eq_none_iff _ _).1 hnew e0 he0 hk
  · rw [e1]
    simp [h.tags, hlen, List.range_succ]
  · simp only [e1, e2, h.ptrs, List.map_cons]
  · intro hn
    have hrev := h.rev (by omega)
    have hnewR : c.reversedMap.lookup (messageType c.registeredMessages.len) = none := by
      rw [GoMap.lookup_eq_none_iff, hrev]
      intro e he
      obtain ⟨e0, he0, rfl⟩ := List.mem_map.1 he
      obtain ⟨i, hi, hie⟩ := h.tag_mem e0 he0
      rw [hlen, messageType_of_lt n (by omega)]
      rw [messageType_of_lt i (by omega)] at hie
      simp only [Prod.fst_swap]
      omega
    have e3 := GoMap.store_entries_of_absent _ _ (concreteTypeOf v) hnewR
    simp only [e1, e3, hrev, List.map_cons, Prod.swap_prod_mk]
  · intro e he
    simp only [e1] at he
    rcases List.mem_cons.1 he with rfl | h1
    · exact himpl
    · exact h.impl e h1

theorem registerStep_inv (P : ProtoLib) (s : GoGoProtobufCodec × Nat) (msg : Iface)
    (h : RegistryInv P s.1 s.2) :
    RegistryInv P (registerStep P s msg).1 (registerStep P s msg).2 := by
  unfold registerStep
  cases hr : RegisterMessage P s.1 msg with
  | panic p => simpa using h
  | ret r =>
    obtain ⟨c1, e⟩ := r
    cases e with
    | none => simpa using h.step hr
    | some e =>
      have := RegisterMessage_err P s.1 c1 msg e hr
      subst this
      simpa using h

theorem foldl_registerStep_inv (P : ProtoLib) (msgs : List Iface)
    (s : GoGoProtobufCodec × Nat) (h : RegistryInv P s.1 s.2) :
    RegistryInv P (msgs.foldl (registerStep P) s).1 (msgs.foldl (registerStep P) s).2 := by
  induction msgs generalizing s with
  | nil => simpa using h
  | cons m ms ih => exact ih _ (registerStep_inv P s m h)

theorem registerAll_inv (P : ProtoLib) (msgs : List Iface) :
    RegistryInv P (registerAll P msgs).1 (registerAll P msgs).2 :=
  foldl_registerStep_inv P msgs _ (RegistryInv.fresh P)

/-! ## Consequences of the invariant -/

theorem GoMap.lookup_iff_mem {κ ν : Type} [DecidableEq κ] (m : GoMap κ ν) (k : κ) (v : ν)
    (hnd : (m.entries.map Prod.fst).Nodup) : m.lookup k = some v ↔ (k, v) ∈ m.entries :=
  ⟨GoMap.mem_of_lookup m k v, GoMap.lookup_of_mem m k v hnd⟩

theorem lookup_ptr_entries (l : List (GoType × Nat)) (T : GoType) :
    (⟨l.map fun e => (GoType.ptr e.1, e.2)⟩ : GoMap GoType Nat).lookup (.ptr T)
      = (⟨l⟩ : GoMap GoType Nat).lookup T := by
  induction l with
  | nil => rfl
  | cons e l ih =>
    obtain ⟨k0, v0⟩ := e
    simp only [List.map_cons, GoMap.lookup_cons, GoType.ptr.injEq, ih]

theorem lookup_ptr_entries_named (l : List (GoType × Nat)) (t : Nat) :
    (⟨l.map fun e => (GoType.ptr e.1, e.2)⟩ : GoMap GoType Nat).lookup (.named t) = none := by
  rw [GoMap.lookup_eq_none_iff]
  intro e he
  obtain ⟨e0, -, rfl⟩ := List.mem_map.1 he
  simp

/-- The handle map answers for `*T` what the type map answers for `T`. -/
theorem RegistryInv.ptrs_lookup {P : ProtoLib} {c : GoGoProtobufCodec} {n : Nat}
    (h : RegistryInv P c n) (T : GoType) :
    c.registeredMessagePtrs.lookup (.ptr T) = c.registeredMessages.lookup T := by
  have h1 := lookup_ptr_entries c.registeredMessages.entries T
  rw [← h.ptrs] at h1
  exact h1

/-- No type that is not a pointer is a key of the handle map. -/
theorem RegistryInv.ptrs_lookup_named {P : ProtoLib} {c : GoGoProtobufCodec} {n : Nat}
    (h : RegistryInv P c n) (t : Nat) : c.registeredMessagePtrs.lookup (.named t) = none := by
  have h1 := lookup_ptr_entries_named c.registeredMessages.entries t
  rw [← h.ptrs] at h1
  exact h1

theorem messageType_range_nodup (n : Nat) (hn : n ≤ 256) :
    (((List.range n).map messageType).reverse).Nodup := by
  rw [List.nodup_reverse]
  refine List.Nodup.map_on ?_ (List.nodup_range n)
  intro i hi j hj hij
  rw [messageType_of_lt i (by have := List.mem_range.1 hi; omega),
    messageType_of_lt j (by have := List.mem_range.1 hj; omega)] at hij
  exact hij

theorem RegistryInv.tags_nodup {P : ProtoLib} {c : GoGoProtobufCodec} {n : Nat}
    (h : RegistryInv P c n) (hn : n ≤ 256) :
    (c.registeredMessages.entries.map Prod.snd).Nodup := by
  rw [h.tags]
  exact messageType_range_nodup n hn

/-- While no tag has been reused the reversed map is the inverse of the type map. -/
theorem RegistryInv.rev_lookup {P : ProtoLib} {c : GoGoProtobufCodec} {n : Nat}
    (h : RegistryInv P c n) (hn : n ≤ 256) (T : GoType) (t : Nat) :
    c.reversedMap.lookup t = some T ↔ c.registeredMessages.lookup T = some t := by
  have hk : (c.reversedMap.entries.map Prod.fst).Nodup := by
    rw [h.rev hn, List.map_map]
    simpa using h.tags_nodup hn
  rw [GoMap.lookup_iff_mem _ _ _ hk, GoMap.lookup_iff_mem _ _ _ h.keys, h.rev hn]
  constructor
  · intro hm
    obtain ⟨e0, he0, he⟩ := List.mem_map.1 hm
    obtain ⟨a, b⟩ := e0
    simp only [Prod.swap_prod_mk, Prod.mk.injEq] at he
    obtain ⟨rfl, rfl⟩ := he
    exact he0
  · intro hm
    exact List.mem_map.2 ⟨(T, t), hm, rfl⟩

/-- The tags in use after `n` successful registrations. -/
theorem RegistryInv.tag_iff {P : ProtoLib} {c : GoGoProtobufCodec} {n : Nat}
    (h : RegistryInv P c n) (t : Nat) :
    (∃ T, c.registeredMessages.lookup T = some t) ↔ ∃ i, i < n ∧ messageType i = t := by
  constructor
  · rintro ⟨T, hT⟩
    exact h.tag_mem (T, t) (GoMap.mem_of_lookup _ _ _ hT)
  · rintro ⟨i, hi, rfl⟩
    have h1 : messageType i ∈ c.registeredMessages.entries.map Prod.snd := by
      rw [h.tags]
      simp only [List.mem_reverse, List.mem_map, List.mem_range]
      exact ⟨i, hi, rfl⟩
    obtain ⟨e, he, hte⟩ := List.mem_map.1 h1
    obtain ⟨T, t0⟩ := e
    simp only at hte
    subst hte
    exact ⟨T, GoMap.lookup_of_mem _ _ _ h.keys he⟩

theorem typeOf_zeroValue (T : GoType) : (zeroValue T).typeOf = T := by
  cases T <;> rfl

/-! ## Evaluating the three operations -/

/-- `Marshal` on a message whose dynamic type is a key of the handle map and a
`proto.Message`. -/
theorem Marshal_registered (P : ProtoLib) (c : GoGoProtobufCodec) (v : GoValue) (tag : Nat)
    (hl : c.registeredMessagePtrs.lookup v.typeOf = some tag)
    (hi : P.implements v.typeOf = true) :
    Marshal P c (some v) =
      match P.Marshal v with
      | .error e => .ret (none, some (.proto e))
      | .ok b => .ret (some (tag :: b), none) := by
  simp only [Marshal, TypeOf, Option.map_some', Option.bind, hl, hi, if_true]
  cases P.Marshal v <;> simp [bufferWrite, binaryWrite]

/-- `Unmarshal` on a frame whose first byte is a key of the reversed map. -/
theorem Unmarshal_registered (P : ProtoLib) (c : GoGoProtobufCodec) (tag : Nat)
    (rest : List Nat) (T : GoType) (hl : c.reversedMap.lookup tag = some T)
    (hi : P.implements (.ptr T) = true) :
    Unmarshal P c (tag :: rest) =
      match protoUnmarshal P rest (.addr (zeroValue T)) with
      | .error e => .ret (none, some (.proto e))
      | .ok m => .ret (some m, none) := by
  simp only [Unmarshal, binaryRead, hl, New, Outcome.bind, GoValue.typeOf, typeOf_zeroValue,
    hi, if_true]

/-- `Unmarshal` on a frame whose first byte is not a key of the reversed map. -/
theorem Unmarshal_unknown_tag (P : ProtoLib) (c : GoGoProtobufCodec) (tag : Nat)
    (rest : List Nat) (hl : c.reversedMap.lookup tag = none) :
    Unmarshal P c (tag :: rest) = .panic .newNilType := by
  simp only [Unmarshal, binaryRead, hl, New, Outcome.bind]

/-- `RegisterMessage` on a handle to an instance of a type not yet registered whose
handle type is a `proto.Message`. -/
theorem RegisterMessage_handle_new (P : ProtoLib) (c : GoGoProtobufCodec) (v : GoValue)
    (hnew : c.registeredMessages.lookup v.typeOf = none)
    (hi : P.implements (.ptr v.typeOf) = true) :
    RegisterMessage P c (some (.addr v)) =
      .ret ({ registeredMessages :=
                c.registeredMessages.store v.typeOf (messageType c.registeredMessages.len)
              reversedMap :=
                c.reversedMap.store (messageType c.registeredMessages.len) v.typeOf
              registeredMessagePtrs :=
                c.registeredMessagePtrs.store (.ptr v.typeOf)
                  (messageType c.registeredMessages.len) }, none) := by
  simp [RegisterMessage, registeredTypes, ValueOf, Value.Kind, Value.Type, Outcome.bind,
    Indirect, Value.Elem, GoValue.typeOf, hnew, ProtoLib.isMessage, hi]

/-! ## The claims -/

/-- C1, round trip: in a codec built from the fresh codec by `RegisterMessage` calls of
which at most 256 succeeded, for a handle to an instance `v` of a registered type on
which the serializer succeeds with payload `b`, and from whose payload the deserializer
rebuilds `v` in a fresh zero instance, `Marshal` succeeds with a frame and `Unmarshal`
of that frame succeeds with a handle to an instance equal to `v`. -/
theorem roundtrip (P : ProtoLib) (msgs : List Iface) (v : GoValue) (b : List Nat)
    (hn : (registerAll P msgs).2 ≤ 256)
    (hreg : ((registerAll P msgs).1.registeredMessages.lookup v.typeOf).isSome = true)
    (hser : P.Marshal (.addr v) = .ok b)
    (hrt : protoUnmarshal P b (.addr (zeroValue v.typeOf)) = .ok (.addr v)) :
    ∃ f, Marshal P (registerAll P msgs).1 (some (.addr v)) = .ret (some f, none) ∧
      Unmarshal P (registerAll P msgs).1 f = .ret (some (.addr v), none) := by
  have inv := registerAll_inv P msgs
  obtain ⟨tag, htag⟩ := Option.isSome_iff_exists.1 hreg
  have himpl : P.implements (.ptr v.typeOf) = true :=
    inv.impl (v.typeOf, tag) (GoMap.mem_of_lookup _ _ _ htag)
  have hptr : (registerAll P msgs).1.registeredMessagePtrs.lookup (GoValue.addr v).typeOf
      = some tag := by
    simp only [GoValue.typeOf]
    rw [inv.ptrs_lookup, htag]
  have hrev : (registerAll P msgs).1.reversedMap.lookup tag = some v.typeOf :=
    (inv.rev_lookup hn v.typeOf tag).2 htag
  refine ⟨tag :: b, ?_, ?_⟩
  · rw [Marshal_registered P _ _ tag hptr (by simpa [GoValue.typeOf] using himpl), hser]
  · rw [Unmarshal_registered P _ tag b v.typeOf hrev himpl, hrt]

/-- C1 at a sample input: the second of three registered types. -/
theorem roundtrip_witness :
    ∃ f, Marshal fieldsLib (registerAll fieldsLib [handle 0 [], handle 1 [], handle 2 []]).1
          (some (.addr (.data 1 [7, 8]))) = .ret (some f, none) ∧
      Unmarshal fieldsLib (registerAll fieldsLib [handle 0 [], handle 1 [], handle 2 []]).1 f
        = .ret (some (.addr (.data 1 [7, 8])), none) :=
  roundtrip fieldsLib [handle 0 [], handle 1 [], handle 2 []] (.data 1 [7, 8]) [7, 8]
    (by decide) (by decide) rfl rfl

/-- C2, wire format: whenever `Marshal` returns without an error, the message is a
value whose dynamic type has a tag in the handle map, the serializer has produced a
payload for it, and the bytes returned are that tag followed by that payload and nothing
else, so 1 + len(payload) bytes; in a codec built by `RegisterMessage` calls the tag is
below 256, one byte. -/
theorem wire_format (P : ProtoLib) (c : GoGoProtobufCodec) (msg : Iface)
    (r : Option (List Nat)) (h : Marshal P c msg = .ret (r, none)) :
    ∃ v tag b, msg = some v ∧ c.registeredMessagePtrs.lookup v.typeOf = some tag ∧
      P.Marshal v = .ok b ∧ r = some (tag :: b) ∧ (tag :: b).length = 1 + b.length ∧
      ∀ msgs, c = (registerAll P msgs).1 → tag < 256 := by
  cases msg with
  | none => simp [Marshal, TypeOf, ValueOf, Value.Elem, Outcome.bind] at h
  | some v =>
    cases hl : c.registeredMessagePtrs.lookup v.typeOf with
    | none =>
      simp only [Marshal, TypeOf, Option.map_some', Option.bind, hl, ValueOf] at h
      cases v <;> simp [Value.Elem, Value.Type, Outcome.bind] at h
    | some tag =>
      by_cases hi : P.implements v.typeOf = true
      · rw [Marshal_registered P c v tag hl hi] at h
        cases hm : P.Marshal v with
        | error e => simp [hm] at h
        | ok b =>
          simp only [hm, Outcome.ret.injEq, Prod.mk.injEq, and_true] at h
          refine ⟨v, tag, b, rfl, hl, hm, h.symm, by simp [Nat.add_comm], ?_⟩
          rintro msgs rfl
          have inv := registerAll_inv P msgs
          have hmem := GoMap.mem_of_lookup _ _ _ hl
          rw [inv.ptrs] at hmem
          obtain ⟨e0, he0, he⟩ := List.mem_map.1 hmem
          obtain ⟨i, -, hi2⟩ := inv.tag_mem e0 he0
          have h3 : e0.2 = tag := congrArg Prod.snd he
          rw [← h3, ← hi2]
          exact messageType_lt i
      · simp [Marshal, TypeOf, hl, hi] at h

/-- C2 at a sample input. -/
theorem wire_format_witness :
    ∃ v tag b, handle 1 [7, 8] = some v ∧
      threeTypes.registeredMessagePtrs.lookup v.typeOf = some tag ∧
      fieldsLib.Marshal v = .ok b ∧ some [1, 7, 8] = some (tag :: b) ∧
      (tag :: b).length = 1 + b.length ∧
      ∀ msgs, threeTypes = (registerAll fieldsLib msgs).1 → tag < 256 :=
  wire_format fieldsLib threeTypes (handle 1 [7, 8]) (some [1, 7, 8]) (by decide)

theorem registerAll_append (P : ProtoLib) (msgs : List Iface) (msg : Iface) :
    registerAll P (msgs ++ [msg]) = registerStep P (registerAll P msgs) msg := by
  simp [registerAll, List.foldl_append]

/-- C3, tag determinism: along every run of `RegisterMessage` calls from the fresh
codec, failed calls included, a call that succeeds after `k < 256` earlier successes
gives tag `k` to the concrete type of its argument, in all three maps, and is counted as
success `k`; after `n ≤ 256` successes the tags in use are exactly the numbers below
`n`; and registering handles of three different message types A, B, C in that order
gives them tags 0, 1, 2. -/
theorem tag_determinism (P : ProtoLib) :
    (∀ (msgs : List Iface) (msg : Iface) (c1 : GoGoProtobufCodec),
      (registerAll P msgs).2 < 256 →
      RegisterMessage P (registerAll P msgs).1 msg = .ret (c1, none) →
      ∃ v, msg = some v ∧
        c1.registeredMessages.lookup (concreteTypeOf v) = some (registerAll P msgs).2 ∧
        c1.reversedMap.lookup (registerAll P msgs).2 = some (concreteTypeOf v) ∧
        c1.registeredMessagePtrs.lookup (.ptr (concreteTypeOf v)) = some (registerAll P msgs).2 ∧
        registerAll P (msgs ++ [msg]) = (c1, (registerAll P msgs).2 + 1)) ∧
    (∀ (msgs : List Iface) (t : Nat), (registerAll P msgs).2 ≤ 256 →
      ((∃ T, (registerAll P msgs).1.registeredMessages.lookup T = some t)
        ↔ t < (registerAll P msgs).2)) ∧
    (∀ (a b c : Nat) (fa fb fc : List Nat), a ≠ b → a ≠ c → b ≠ c →
      P.implements (.ptr (.named a)) = true → P.implements (.ptr (.named b)) = true →
      P.implements (.ptr (.named c)) = true →
      (registerAll P [handle a fa, handle b fb, handle c fc]).2 = 3 ∧
      (registerAll P [handle a fa, handle b fb, handle c fc]).1.registeredMessages.lookup
        (.named a) = some 0 ∧
      (registerAll P [handle a fa, handle b fb, handle c fc]).1.registeredMessages.lookup
        (.named b) = some 1 ∧
      (registerAll P [handle a fa, handle b fb, handle c fc]).1.registeredMessages.lookup
        (.named c) = some 2) := by
  refine ⟨?_, ?_, ?_⟩
  · intro msgs msg c1 hk hr
    have inv := registerAll_inv P msgs
    obtain ⟨v, hv, -, -, hc1⟩ := RegisterMessage_ok P _ c1 msg hr
    have hm : messageType (registerAll P msgs).1.registeredMessages.len
        = (registerAll P msgs).2 := by
      rw [inv.len_eq, messageType_of_lt _ hk]
    rw [hm] at hc1
    refine ⟨v, hv, ?_, ?_, ?_, ?_⟩
    · rw [hc1]
      exact GoMap.lookup_store_self _ _ _
    · rw [hc1]
      exact GoMap.lookup_store_self _ _ _
    · rw [hc1]
      exact GoMap.lookup_store_self _ _ _
    · rw [registerAll_append]
      simp only [registerStep, hr]
  · intro msgs t hn
    rw [(registerAll_inv P msgs).tag_iff t]
    constructor
    · rintro ⟨i, hi, rfl⟩
      rw [messageType_of_lt i (by omega)]
      exact hi
    · intro ht
      exact ⟨t, ht, messageType_of_lt t (by omega)⟩
  · intro a b c fa fb fc hab hac hbc ha hb hc
    have hba : b ≠ a := fun h => hab h.symm
    have hca : c ≠ a := fun h => hac h.symm
    have hcb : c ≠ b := fun h => hbc h.symm
    simp [registerAll, registerStep, handle, RegisterMessage, registeredTypes, ValueOf,
      Value.Kind, Value.Type, Outcome.bind, Indirect, Value.Elem, GoValue.typeOf,
      ProtoLib.isMessage, ha, hb, hc, NewGoGoProtobufCodec, GoMap.make, GoMap.lookup,
      GoMap.store, GoMap.len, messageType, List.find?, hab, hac, hbc, hba, hca, hcb]

/-- C3 at a sample input: the types 5, 3 and 9 registered in that order, for a library
of pointer-receiver messages. -/
theorem tag_determinism_witness :
    (registerAll fieldsLib [handle 5 [], handle 3 [1], handle 9 []]).2 = 3 ∧
    (registerAll fieldsLib [handle 5 [], handle 3 [1], handle 9 []]).1.registeredMessages.lookup
      (.named 5) = some 0 ∧
    (registerAll fieldsLib [handle 5 [], handle 3 [1], handle 9 []]).1.registeredMessages.lookup
      (.named 3) = some 1 ∧
    (registerAll fieldsLib [handle 5 [], handle 3 [1], handle 9 []]).1.registeredMessages.lookup
      (.named 9) = some 2 :=
  (tag_determinism fieldsLib).2.2 5 3 9 [] [1] [] (by decide) (by decide) (by decide)
    rfl rfl rfl

/-- Duplicate rejection of a message with an instance: in any codec in which the type
of `v` is registered,
`RegisterMessage` called with a handle to `v`, and called with `v` itself when `v` is
not a pointer, returns the already-registered error and the codec unchanged. -/
theorem duplicate_rejected (P : ProtoLib) (c : GoGoProtobufCodec) (v : GoValue)
    (h : (c.registeredMessages.lookup v.typeOf).isSome = true) :
    RegisterMessage P c (some (.addr v)) = .ret (c, some (.alreadyRegistered v.typeOf)) ∧
    (Value.Kind (some v) ≠ .Ptr →
      RegisterMessage P c (some v) = .ret (c, some (.alreadyRegistered v.typeOf))) := by
  constructor
  · simp [RegisterMessage, registeredTypes, ValueOf, Value.Kind, Value.Type, Outcome.bind,
      Indirect, Value.Elem, GoValue.typeOf, h]
  · intro hk
    cases v with
    | data t f =>
      simp only [GoValue.typeOf] at h
      simp [RegisterMessage, registeredTypes, ValueOf, Value.Kind, Value.Type, Outcome.bind,
        PtrTo, GoValue.typeOf, h]
    | nilptr e => simp [Value.Kind] at hk
    | addr w => simp [Value.Kind] at hk

/-- Duplicate rejection at a sample input: type 1 of the three registered types, as a
handle to an instance and as a value. -/
theorem duplicate_rejected_witness :
    RegisterMessage fieldsLib threeTypes (some (.addr (.data 1 [4])))
      = .ret (threeTypes, some (.alreadyRegistered (.named 1))) ∧
    (Value.Kind (some (.data 1 [4])) ≠ .Ptr →
      RegisterMessage fieldsLib threeTypes (some (.data 1 [4]))
        = .ret (threeTypes, some (.alreadyRegistered (.named 1)))) :=
  duplicate_rejected fieldsLib threeTypes (.data 1 [4]) (by decide)

/-- C5, unknown tag: with the three types 0, 1, 2 registered, the reversed map has no
entry for tag 255 and `Unmarshal` of the one-byte frame 255 does not return an error: it
panics in `reflect.New`, which is handed the nil type of the failed lookup. -/
theorem unknown_tag_aborts :
    threeTypes.reversedMap.lookup 255 = none ∧
    Unmarshal fieldsLib threeTypes [255] = .panic .newNilType := by
  decide

/-- C6, unknown type: in any codec, for a handle to an instance `v` whose handle type is
not a key of the handle map, `Marshal` returns no bytes and the unknown-type error,
whatever the serializer would do with the message. -/
theorem unknown_type_rejected (P : ProtoLib) (c : GoGoProtobufCodec) (v : GoValue)
    (h : c.registeredMessagePtrs.lookup (.ptr v.typeOf) = none) :
    Marshal P c (some (.addr v)) = .ret (none, some (.unknownType v.typeOf)) := by
  simp [Marshal, TypeOf, GoValue.typeOf, h, ValueOf, Value.Elem, Value.Type, Outcome.bind]

/-- C6 at a sample input: a handle of type 7, on which the serializer would succeed,
with only the types 0, 1, 2 registered. -/
theorem unknown_type_rejected_witness :
    fieldsLib.Marshal (.addr (.data 7 [1])) = .ok [1] ∧
    Marshal fieldsLib threeTypes (some (.addr (.data 7 [1])))
      = .ret (none, some (.unknownType (.named 7))) :=
  ⟨rfl, unknown_type_rejected fieldsLib threeTypes (.data 7 [1]) (by decide)⟩

/-- C7, malformed input: in any codec `Unmarshal` of the empty byte sequence returns no
message and the end-of-input error of the tag read; on an input of length at least 1 the
tag read succeeds, taking the first byte as the tag and leaving the rest, and `Unmarshal`
does not end with that error. -/
theorem malformed_input (P : ProtoLib) (c : GoGoProtobufCodec) :
    Unmarshal P c [] = .ret (none, some .eof) ∧
    ∀ d : List Nat, 1 ≤ d.length →
      (∃ tag rest, d = tag :: rest ∧ binaryRead d = .ok (tag, rest)) ∧
      ∀ r, Unmarshal P c d ≠ .ret (r, some .eof) := by
  refine ⟨rfl, ?_⟩
  intro d hd
  cases d with
  | nil => simp at hd
  | cons tag rest =>
    refine ⟨⟨tag, rest, rfl, rfl⟩, ?_⟩
    intro r
    simp only [Unmarshal, binaryRead]
    cases hN : New (c.reversedMap.lookup tag) with
    | panic p => simp [Outcome.bind]
    | ret msg =>
      simp only [Outcome.bind]
      by_cases hi : P.implements msg.typeOf = true
      · simp only [hi, if_true]
        cases protoUnmarshal P rest msg <;> simp
      · simp [hi]

/-- C7 at a sample input: a one-byte frame. -/
theorem malformed_input_witness :
    (∃ tag rest, [1] = tag :: rest ∧ binaryRead [1] = .ok (tag, rest)) ∧
    ∀ r, Unmarshal fieldsLib threeTypes [1] ≠ .ret (r, some .eof) :=
  (malformed_input fieldsLib threeTypes).2 [1] (by decide)

/-- C8, bijection: in a codec built from the fresh codec by `RegisterMessage` calls of
which at most 256 succeeded, no two types have the same tag, the reversed map sends a
tag to a type exactly when the type map sends that type to that tag, and the two maps
have the same number of entries. -/
theorem registry_bijection (P : ProtoLib) (msgs : List Iface)
    (hn : (registerAll P msgs).2 ≤ 256) :
    (∀ T1 T2 t, (registerAll P msgs).1.registeredMessages.lookup T1 = some t →
      (registerAll P msgs).1.registeredMessages.lookup T2 = some t → T1 = T2) ∧
    (∀ T t, (registerAll P msgs).1.registeredMessages.lookup T = some t ↔
      (registerAll P msgs).1.reversedMap.lookup t = some T) ∧
    (registerAll P msgs).1.registeredMessages.len = (registerAll P msgs).1.reversedMap.len := by
  have inv := registerAll_inv P msgs
  refine ⟨?_, ?_, ?_⟩
  · intro T1 T2 t h1 h2
    have h3 := (inv.rev_lookup hn T1 t).2 h1
    have h4 := (inv.rev_lookup hn T2 t).2 h2
    rw [h3] at h4
    exact Option.some.inj h4
  · intro T t
    exact (inv.rev_lookup hn T t).symm
  · simp [GoMap.len, inv.rev hn]

/-- C8 at a sample input: the codec with three registered types. -/
theorem registry_bijection_witness :
    (∀ T1 T2 t, threeTypes.registeredMessages.lookup T1 = some t →
      threeTypes.registeredMessages.lookup T2 = some t → T1 = T2) ∧
    (∀ T t, threeTypes.registeredMessages.lookup T = some t ↔
      threeTypes.reversedMap.lookup t = some T) ∧
    threeTypes.registeredMessages.len = threeTypes.reversedMap.len :=
  registry_bijection fieldsLib [handle 0 [], handle 1 [], handle 2 []] (by decide)

/-- C10, value and handle agree: in every codec built from the fresh codec by
`RegisterMessage` calls, however many, the type map has tag `t` for the type `T` exactly
when the handle map has tag `t` for the pointer type `*T`; so `T` is a key of the one
exactly when `*T` is a key of the other, with the same tag. -/
theorem value_handle_agree (P : ProtoLib) (msgs : List Iface) (T : GoType) :
    (∀ t, (registerAll P msgs).1.registeredMessages.lookup T = some t ↔
      (registerAll P msgs).1.registeredMessagePtrs.lookup (.ptr T) = some t) ∧
    ((registerAll P msgs).1.registeredMessages.lookup T).isSome
      = ((registerAll P msgs).1.registeredMessagePtrs.lookup (.ptr T)).isSome := by
  have h := (registerAll_inv P msgs).ptrs_lookup T
  rw [h]
  exact ⟨fun _ => Iff.rfl, rfl⟩

/-! ## The run that fills the tag space -/

/-- Registering handles of the types `0, ..., n-1` in that order, for `n ≤ 256`: every
call succeeds and type `i` gets tag `i`. -/
theorem registerAll_range (n : Nat) (hn : n ≤ 256) :
    (registerAll fieldsLib ((List.range n).map fun t => handle t [])).2 = n ∧
    ∀ i,
      (registerAll fieldsLib
        ((List.range n).map fun t => handle t [])).1.registeredMessages.lookup (.named i)
        = if i < n then some i else none := by
  induction n with
  | zero => exact ⟨rfl, fun i => rfl⟩
  | succ n ih =>
    obtain ⟨h2, hl⟩ := ih (by omega)
    have inv := registerAll_inv fieldsLib ((List.range n).map fun t => handle t [])
    have hnew :
        (registerAll fieldsLib
          ((List.range n).map fun t => handle t [])).1.registeredMessages.lookup
            (GoValue.data n []).typeOf = none := by
      simp only [GoValue.typeOf]
      rw [hl n]
      simp
    have hr := RegisterMessage_handle_new fieldsLib _ (.data n []) hnew rfl
    rw [inv.len_eq, h2, messageType_of_lt n (by omega)] at hr
    simp only [GoValue.typeOf] at hr
    have hstep : registerAll fieldsLib ((List.range (n + 1)).map fun t => handle t [])
        = registerStep fieldsLib
            (registerAll fieldsLib ((List.range n).map fun t => handle t [])) (handle n []) := by
      rw [List.range_succ, List.map_append]
      exact registerAll_append fieldsLib _ _
    have hr1 : RegisterMessage fieldsLib
        (registerAll fieldsLib ((List.range n).map fun t => handle t [])).1 (handle n []) = _ := hr
    rw [hstep]
    simp only [registerStep, hr1, h2, true_and]
    intro i
    by_cases hi : i = n
    · subst hi
      rw [GoMap.lookup_store_self]
      simp
    · rw [GoMap.lookup_store_ne _ _ _ _ (by simpa using hi), hl i]
      by_cases h3 : i < n
      · simp [h3, Nat.lt_succ_of_lt h3]
      · have h4 : ¬ i < n + 1 := by omega
        simp [h3, h4]

/-- The 257th registration, in any codec that satisfies the invariant at 256 successes
with type 0 at tag 0. -/
theorem RegisterMessage_at_capacity (P : ProtoLib) (c : GoGoProtobufCodec) (t : Nat)
    (inv : RegistryInv P c 256) (h0 : c.registeredMessages.lookup (.named 0) = some 0)
    (hnew : c.registeredMessages.lookup (.named t) = none) (ht : t ≠ 0)
    (hi : P.implements (.ptr (.named t)) = true) :
    c.reversedMap.lookup 0 = some (.named 0) ∧
    ∃ c1, RegisterMessage P c (handle t []) = .ret (c1, none) ∧
      c1 ≠ c ∧
      c1.registeredMessages.lookup (.named t) = some 0 ∧
      c1.registeredMessages.lookup (.named 0) = some 0 ∧
      c1.reversedMap.lookup 0 = some (.named t) := by
  have hr := RegisterMessage_handle_new P c (.data t []) hnew hi
  have hlen : messageType c.registeredMessages.len = 0 := by
    rw [inv.len_eq]
    rfl
  rw [hlen] at hr
  simp only [GoValue.typeOf] at hr
  refine ⟨(inv.rev_lookup (Nat.le_refl 256) (.named 0) 0).2 h0, _, hr, ?_, ?_, ?_, ?_⟩
  · intro hc
    have h5 := congrArg (fun c => c.registeredMessages.lookup (.named t)) hc
    simp only [GoMap.lookup_store_self, hnew] at h5
    exact Option.noConfusion h5
  · exact GoMap.lookup_store_self _ _ _
  · rw [GoMap.lookup_store_ne _ _ _ _ (by simpa using ht.symm), h0]
  · exact GoMap.lookup_store_self _ _ _

/-- C9, capacity: the run registering handles of the 256 types 0, ..., 255 succeeds 256
times and leaves tag 0 with type 0; type 256 is not registered; yet `RegisterMessage` with a
handle of type 256 returns no error, changes the codec, gives type 256 the tag 0 that
type 0 still has, and puts type 256 in place of type 0 in the reversed map. -/
theorem capacity_not_validated :
    (registerAll fieldsLib fullRun).2 = 256 ∧
    (registerAll fieldsLib fullRun).1.registeredMessages.lookup (.named 256) = none ∧
    (registerAll fieldsLib fullRun).1.reversedMap.lookup 0 = some (.named 0) ∧
    ∃ c1,
      RegisterMessage fieldsLib (registerAll fieldsLib fullRun).1 (handle 256 [])
        = .ret (c1, none) ∧
      c1 ≠ (registerAll fieldsLib fullRun).1 ∧
      c1.registeredMessages.lookup (.named 256) = some 0 ∧
      c1.registeredMessages.lookup (.named 0) = some 0 ∧
      c1.reversedMap.lookup 0 = some (.named 256) := by
  have hrun : fullRun = (List.range 256).map fun t => handle t [] := rfl
  rw [hrun]
  obtain ⟨h2, hl⟩ := registerAll_range 256 (Nat.le_refl 256)
  have inv := registerAll_inv fieldsLib ((List.range 256).map fun t => handle t [])
  rw [h2] at inv
  have h0 := hl 0
  have hnew := hl 256
  simp only [Nat.lt_irrefl, if_false] at hnew
  simp only [Nat.zero_lt_succ, if_true] at h0
  generalize registerAll fieldsLib ((List.range 256).map fun t => handle t []) = s at *
  exact ⟨h2, hnew, RegisterMessage_at_capacity fieldsLib s.1 256 inv h0 hnew (by decide) rfl⟩

/-! ## Registration of a new type -/

/-- `RegisterMessage` on a message that is not a nil pointer, of a type not yet
registered, which is a `proto.Message`: the three stores under the concrete type. -/
theorem RegisterMessage_new (P : ProtoLib) (c : GoGoProtobufCodec) (v : GoValue)
    (hv : ∀ e, v ≠ .nilptr e)
    (hnew : c.registeredMessages.lookup (concreteTypeOf v) = none)
    (hcap : P.isMessage (some v) = true) :
    RegisterMessage P c (some v) =
      .ret ({ registeredMessages :=
                c.registeredMessages.store (concreteTypeOf v)
                  (messageType c.registeredMessages.len)
              reversedMap :=
                c.reversedMap.store (messageType c.registeredMessages.len) (concreteTypeOf v)
              registeredMessagePtrs :=
                c.registeredMessagePtrs.store (.ptr (concreteTypeOf v))
                  (messageType c.registeredMessages.len) }, none) := by
  cases v with
  | data t f =>
    simp only [concreteTypeOf, GoValue.typeOf] at hnew ⊢
    simp [RegisterMessage, registeredTypes, ValueOf, Value.Kind, Value.Type, Outcome.bind,
      PtrTo, GoValue.typeOf, hnew, hcap]
  | nilptr e => exact absurd rfl (hv e)
  | addr w =>
    simp only [concreteTypeOf, GoValue.typeOf] at hnew ⊢
    exact RegisterMessage_handle_new P c w hnew
      (by simpa [ProtoLib.isMessage, GoValue.typeOf] using hcap)

/-- `RegisterMessage` on a message that is not a nil pointer, of a type not yet
registered, which is not a `proto.Message`. -/
theorem RegisterMessage_not_message (P : ProtoLib) (c : GoGoProtobufCodec) (v : GoValue)
    (hv : ∀ e, v ≠ .nilptr e)
    (hnew : c.registeredMessages.lookup (concreteTypeOf v) = none)
    (hcap : P.isMessage (some v) = false) :
    RegisterMessage P c (some v) = .ret (c, some (.notProtobuf (concreteTypeOf v))) := by
  cases v with
  | data t f =>
    simp only [concreteTypeOf, GoValue.typeOf] at hnew ⊢
    simp [RegisterMessage, registeredTypes, ValueOf, Value.Kind, Value.Type, Outcome.bind,
      PtrTo, GoValue.typeOf, hnew, hcap]
  | nilptr e => exact absurd rfl (hv e)
  | addr w =>
    simp only [concreteTypeOf, GoValue.typeOf] at hnew ⊢
    simp [RegisterMessage, registeredTypes, ValueOf, Value.Kind, Value.Type, Outcome.bind,
      Indirect, Value.Elem, GoValue.typeOf, hnew, hcap]

/-- Registration of a message with an instance: in any codec with fewer than 256
registered types,
for a message (a value, or a handle to an instance) whose concrete type `T` is not
registered and which is a `proto.Message`, `RegisterMessage` computes `T` and `*T` as
concrete and handle type, returns no error, and afterwards the type map sends `T` to the
former count `n`, the reversed map sends `n` to `T` and the handle map sends `*T` to
`n`. -/
theorem registration_postcondition (P : ProtoLib) (c : GoGoProtobufCodec) (v : GoValue)
    (hv : ∀ e, v ≠ .nilptr e)
    (hn : c.registeredMessages.len < 256)
    (hnew : c.registeredMessages.lookup (concreteTypeOf v) = none)
    (hcap : P.isMessage (some v) = true) :
    registeredTypes (some v) = .ret (concreteTypeOf v, .ptr (concreteTypeOf v)) ∧
    ∃ c1, RegisterMessage P c (some v) = .ret (c1, none) ∧
      c1.registeredMessages.lookup (concreteTypeOf v) = some c.registeredMessages.len ∧
      c1.reversedMap.lookup c.registeredMessages.len = some (concreteTypeOf v) ∧
      c1.registeredMessagePtrs.lookup (.ptr (concreteTypeOf v))
        = some c.registeredMessages.len := by
  constructor
  · cases v with
    | data t f => rfl
    | nilptr e => exact absurd rfl (hv e)
    | addr w => rfl
  · have hr := RegisterMessage_new P c v hv hnew hcap
    rw [messageType_of_lt _ hn] at hr
    exact ⟨_, hr, GoMap.lookup_store_self _ _ _, GoMap.lookup_store_self _ _ _,
      GoMap.lookup_store_self _ _ _⟩

/-- Registration at a sample input: a handle to an instance of type 7, after the types
0, 1, 2. -/
theorem registration_postcondition_witness :
    registeredTypes (some (.addr (.data 7 [1])))
      = .ret (concreteTypeOf (.addr (.data 7 [1])), .ptr (concreteTypeOf (.addr (.data 7 [1])))) ∧
    ∃ c1, RegisterMessage fieldsLib threeTypes (some (.addr (.data 7 [1]))) = .ret (c1, none) ∧
      c1.registeredMessages.lookup (concreteTypeOf (.addr (.data 7 [1])))
        = some threeTypes.registeredMessages.len ∧
      c1.reversedMap.lookup threeTypes.registeredMessages.len
        = some (concreteTypeOf (.addr (.data 7 [1]))) ∧
      c1.registeredMessagePtrs.lookup (.ptr (concreteTypeOf (.addr (.data 7 [1]))))
        = some threeTypes.registeredMessages.len :=
  registration_postcondition fieldsLib threeTypes (.addr (.data 7 [1]))
    (fun e h => GoValue.noConfusion h) (by decide) (by decide) rfl

/-- Rejection of a message with an instance that is not serializable: in any codec, for
a message (a value, or a handle to an instance) whose concrete type is not registered and which is not a `proto.Message`,
`RegisterMessage` returns the not-a-protobuf-message error and the codec unchanged; the
call is not counted as a success, and the next successful registration on the codec it
returns gets the tag of the unchanged count (the count itself below 256). -/
theorem not_serializable_rejected (P : ProtoLib) (c : GoGoProtobufCodec) (v : GoValue)
    (hv : ∀ e, v ≠ .nilptr e)
    (hnew : c.registeredMessages.lookup (concreteTypeOf v) = none)
    (hcap : P.isMessage (some v) = false) :
    RegisterMessage P c (some v) = .ret (c, some (.notProtobuf (concreteTypeOf v))) ∧
    (∀ n, registerStep P (c, n) (some v) = (c, n)) ∧
    ∀ c1 e, RegisterMessage P c (some v) = .ret (c1, e) →
      ∀ msg c2, RegisterMessage P c1 msg = .ret (c2, none) →
        ∃ w, msg = some w ∧
          c2.registeredMessages.lookup (concreteTypeOf w)
            = some (messageType c.registeredMessages.len) ∧
          (c.registeredMessages.len < 256 →
            c2.registeredMessages.lookup (concreteTypeOf w) = some c.registeredMessages.len) := by
  have hr := RegisterMessage_not_message P c v hv hnew hcap
  refine ⟨hr, ?_, ?_⟩
  · intro n
    simp only [registerStep, hr]
  · intro c1 e h1 msg c2 h2
    rw [hr] at h1
    simp only [Outcome.ret.injEq, Prod.mk.injEq] at h1
    obtain ⟨rfl, -⟩ := h1
    obtain ⟨w, hw, -, -, rfl⟩ := RegisterMessage_ok P c c2 msg h2
    refine ⟨w, hw, GoMap.lookup_store_self _ _ _, ?_⟩
    intro hn
    rw [messageType_of_lt _ hn]
    exact GoMap.lookup_store_self _ _ _

/-- Rejection at a sample input: a value of type 7 offered to a library of
pointer-receiver messages. -/
theorem not_serializable_rejected_witness :
    RegisterMessage fieldsLib threeTypes (some (.data 7 [1]))
      = .ret (threeTypes, some (.notProtobuf (.named 7))) :=
  (not_serializable_rejected fieldsLib threeTypes (.data 7 [1])
    (fun e h => GoValue.noConfusion h) (by decide) rfl).1

/-- Value and handle to an instance register alike: in any codec, for a type `t` not yet
registered,
if a value of `t` and a handle to an instance of `t` are both `proto.Message`s, then
`RegisterMessage` succeeds on either and returns the same codec: the old one with `t`
and `*t` stored under the next tag. -/
theorem form_independent (P : ProtoLib) (c : GoGoProtobufCodec) (t : Nat)
    (fv fh : List Nat)
    (hnew : c.registeredMessages.lookup (.named t) = none)
    (hval : P.isMessage (some (.data t fv)) = true)
    (hhdl : P.isMessage (some (.addr (.data t fh))) = true) :
    ∃ c1, RegisterMessage P c (some (.data t fv)) = .ret (c1, none) ∧
      RegisterMessage P c (some (.addr (.data t fh))) = .ret (c1, none) ∧
      c1 = { registeredMessages :=
               c.registeredMessages.store (.named t) (messageType c.registeredMessages.len)
             reversedMap :=
               c.reversedMap.store (messageType c.registeredMessages.len) (.named t)
             registeredMessagePtrs :=
               c.registeredMessagePtrs.store (.ptr (.named t))
                 (messageType c.registeredMessages.len) } := by
  have h1 := RegisterMessage_new P c (.data t fv) (fun e h => GoValue.noConfusion h) hnew hval
  have h2 := RegisterMessage_new P c (.addr (.data t fh)) (fun e h => GoValue.noConfusion h)
    hnew hhdl
  exact ⟨_, h1, h2, rfl⟩

/-- Value and handle to an instance at a sample input: type 7 of a library of
value-receiver messages, registered in the fresh codec. -/
theorem form_independent_witness :
    ∃ c1, RegisterMessage valueLib NewGoGoProtobufCodec (some (.data 7 [1])) = .ret (c1, none) ∧
      RegisterMessage valueLib NewGoGoProtobufCodec (some (.addr (.data 7 [2])))
        = .ret (c1, none) ∧
      c1 = { registeredMessages :=
               NewGoGoProtobufCodec.registeredMessages.store (.named 7)
                 (messageType NewGoGoProtobufCodec.registeredMessages.len)
             reversedMap :=
               NewGoGoProtobufCodec.reversedMap.store
                 (messageType NewGoGoProtobufCodec.registeredMessages.len) (.named 7)
             registeredMessagePtrs :=
               NewGoGoProtobufCodec.registeredMessagePtrs.store (.ptr (.named 7))
                 (messageType NewGoGoProtobufCodec.registeredMessages.len) } :=
  form_independent valueLib NewGoGoProtobufCodec 7 [1] [2] rfl rfl rfl

/-- C17, read-only: for every codec, message and byte sequence, the codec after
`Marshal` and after `Unmarshal`, run statement by statement with the codec threaded
through, is the codec before the call, whether the call returns a result, returns an
error or panics; and what these runs return is what `Marshal` and `Unmarshal` return. -/
theorem encode_decode_read_only (P : ProtoLib) (c : GoGoProtobufCodec) (msg : Iface)
    (d : List Nat) :
    (MarshalMethod P msg c).1 = c ∧ (MarshalMethod P msg c).2 = Marshal P c msg ∧
    (UnmarshalMethod P d c).1 = c ∧ (UnmarshalMethod P d c).2 = Unmarshal P c d := by
  have hM : MarshalMethod P msg c = (c, Marshal P c msg) := by
    simp only [MarshalMethod, Marshal, Method.bind, readMessagePtrs]
    cases (TypeOf msg).bind c.registeredMessagePtrs.lookup with
    | none => rfl
    | some mtype =>
      cases msg with
      | none => rfl
      | some v =>
        by_cases hi : P.implements v.typeOf = true
        · simp only [hi, if_true]
          cases P.Marshal v <;> rfl
        · simp only [hi]
          rfl
  have hU : UnmarshalMethod P d c = (c, Unmarshal P c d) := by
    cases d with
    | nil => rfl
    | cons tag rest =>
      simp only [UnmarshalMethod, Unmarshal, binaryRead, Method.bind, readReversedMap,
        Method.lift]
      cases hN : New (c.reversedMap.lookup tag) with
      | panic p => rfl
      | ret m =>
        by_cases hi : P.implements m.typeOf = true
        · simp only [Outcome.bind, hi, if_true]
          cases protoUnmarshal P rest m <;> rfl
        · simp only [Outcome.bind, hi]
          rfl
  rw [hM, hU]
  exact ⟨rfl, rfl, rfl, rfl⟩

/-! ## More on the codecs reached by registrations -/

theorem typeOf_setFields (v : GoValue) (f : List Nat) : (setFields v f).typeOf = v.typeOf := by
  cases v with
  | data t g => rfl
  | nilptr e => rfl
  | addr w => cases w <;> rfl

theorem implements_ptr_named (P : ProtoLib) (T : GoType) (h : P.implements (.ptr T) = true) :
    ∃ t, T = .named t := by
  cases T with
  | named t => exact ⟨t, rfl⟩
  | ptr e => simp [ProtoLib.implements] at h

/-- Every key of the handle map is the pointer type of a registered type, with its tag,
and is a `proto.Message`. -/
theorem RegistryInv.ptrs_key {P : ProtoLib} {c : GoGoProtobufCodec} {n : Nat}
    (h : RegistryInv P c n) (X : GoType) (tag : Nat)
    (hl : c.registeredMessagePtrs.lookup X = some tag) :
    ∃ T, X = .ptr T ∧ c.registeredMessages.lookup T = some tag ∧
      P.implements X = true := by
  have hmem := GoMap.mem_of_lookup _ _ _ hl
  rw [h.ptrs] at hmem
  obtain ⟨e0, he0, he⟩ := List.mem_map.1 hmem
  obtain ⟨T, t0⟩ := e0
  simp only [Prod.mk.injEq] at he
  obtain ⟨rfl, rfl⟩ := he
  exact ⟨T, rfl, GoMap.lookup_of_mem _ _ _ h.keys he0, h.impl (T, t0) he0⟩

theorem foldl_registerStep_rev (P : ProtoLib) (msgs : List Iface)
    (s : GoGoProtobufCodec × Nat)
    (h : ∀ e ∈ s.1.reversedMap.entries, P.implements (.ptr e.2) = true) :
    ∀ e ∈ (msgs.foldl (registerStep P) s).1.reversedMap.entries,
      P.implements (.ptr e.2) = true := by
  induction msgs generalizing s with
  | nil => simpa using h
  | cons m ms ih =>
    apply ih
    unfold registerStep
    cases hr : RegisterMessage P s.1 m with
    | panic p => simpa using h
    | ret r =>
      obtain ⟨c1, e⟩ := r
      cases e with
      | some e =>
        have := RegisterMessage_err P s.1 c1 m e hr
        subst this
        simpa using h
      | none =>
        obtain ⟨v, -, -, himpl, rfl⟩ := RegisterMessage_ok P s.1 c1 m hr
        intro e he
        simp only [GoMap.store, List.mem_cons, List.mem_filter] at he
        rcases he with rfl | ⟨he, -⟩
        · exact himpl
        · exact h e he

/-- Every type in the reversed map has a handle type that is a `proto.Message`, after
any number of registrations. -/
theorem registerAll_rev_implements (P : ProtoLib) (msgs : List Iface) (tag : Nat) (T : GoType)
    (h : (registerAll P msgs).1.reversedMap.lookup tag = some T) :
    P.implements (.ptr T) = true :=
  foldl_registerStep_rev P msgs _ (by simp [NewGoGoProtobufCodec, GoMap.make]) (tag, T)
    (GoMap.mem_of_lookup _ _ _ h)

/-- An error-free return of `Marshal`. -/
theorem Marshal_success (P : ProtoLib) (c : GoGoProtobufCodec) (msg : Iface)
    (r : Option (List Nat)) (e : Option Err) (h : Marshal P c msg = .ret (r, e)) :
    (∃ v t, msg = some (.addr v) ∧ r = none ∧ e = some (.unknownType t)) ∨
    (∃ v tag, msg = some v ∧ c.registeredMessagePtrs.lookup v.typeOf = some tag ∧
      ((∃ x, P.Marshal v = .error x ∧ r = none ∧ e = some (.proto x)) ∨
       (∃ b, P.Marshal v = .ok b ∧ r = some (tag :: b) ∧ e = none))) := by
  cases msg with
  | none => simp [Marshal, TypeOf, ValueOf, Value.Elem, Outcome.bind] at h
  | some v =>
    cases hl : c.registeredMessagePtrs.lookup v.typeOf with
    | none =>
      simp only [Marshal, TypeOf, Option.map_some', Option.bind, hl, ValueOf] at h
      cases v with
      | data t f => simp [Value.Elem, Outcome.bind] at h
      | nilptr e0 => simp [Value.Elem, Value.Type, Outcome.bind] at h
      | addr w =>
        simp only [Value.Elem, Value.Type, Outcome.bind, Outcome.ret.injEq,
          Prod.mk.injEq] at h
        exact Or.inl ⟨w, w.typeOf, rfl, h.1.symm, h.2.symm⟩
    | some tag =>
      by_cases hi : P.implements v.typeOf = true
      · rw [Marshal_registered P c v tag hl hi] at h
        refine Or.inr ⟨v, tag, rfl, hl, ?_⟩
        cases hm : P.Marshal v with
        | error x =>
          simp only [hm, Outcome.ret.injEq, Prod.mk.injEq] at h
          exact Or.inl ⟨x, rfl, h.1.symm, h.2.symm⟩
        | ok b =>
          simp only [hm, Outcome.ret.injEq, Prod.mk.injEq] at h
          exact Or.inr ⟨b, rfl, h.1.symm, h.2.symm⟩
      · simp [Marshal, TypeOf, hl, hi] at h

/-- The codec after registering handles of two different message types. -/
theorem registerAll_pair (P : ProtoLib) (p q : Nat) (fp fq : List Nat) (hpq : p ≠ q)
    (hp : P.implements (.ptr (.named p)) = true) (hq : P.implements (.ptr (.named q)) = true) :
    registerAll P [handle p fp, handle q fq] =
      ({ registeredMessages := ⟨[(.named q, 1), (.named p, 0)]⟩
         reversedMap := ⟨[(1, .named q), (0, .named p)]⟩
         registeredMessagePtrs := ⟨[(.ptr (.named q), 1), (.ptr (.named p), 0)]⟩ }, 2) := by
  have hqp : q ≠ p := fun h => hpq h.symm
  simp [registerAll, registerStep, handle, RegisterMessage, registeredTypes, ValueOf,
    Value.Kind, Value.Type, Outcome.bind, Indirect, Value.Elem, GoValue.typeOf,
    ProtoLib.isMessage, hp, hq, NewGoGoProtobufCodec, GoMap.make, GoMap.lookup,
    GoMap.store, GoMap.len, messageType, List.find?, hpq, hqp]

/-- `Unmarshal` on a frame whose tag the reversed map sends to the type `t`, a type
with `*t` a `proto.Message`. -/
theorem Unmarshal_named (P : ProtoLib) (c : GoGoProtobufCodec) (tag t : Nat)
    (rest : List Nat) (hl : c.reversedMap.lookup tag = some (.named t))
    (hi : P.implements (.ptr (.named t)) = true) :
    Unmarshal P c (tag :: rest) =
      match P.Unmarshal rest (.addr (.data t [])) with
      | .error e => .ret (none, some (.proto e))
      | .ok g => .ret (some (.addr (.data t g)), none) := by
  rw [Unmarshal_registered P c tag rest (.named t) hl hi]
  simp only [protoUnmarshal, zeroValue]
  cases P.Unmarshal rest (.addr (.data t [])) <;> rfl

/-- C13, decode result: in every codec built from the fresh codec by `RegisterMessage`
calls, for a frame of length at least 1 whose first byte the reversed map sends to the
type `T`, `T` is a non-pointer type `t`, the deserializer is run on exactly the bytes
after the first and a handle to a fresh zero instance of `t`, and `Unmarshal` returns
the deserializer's error and no message when it fails, and the handle to the instance
of `t` with the fields it has left when it succeeds. -/
theorem decode_result (P : ProtoLib) (msgs : List Iface) (tag : Nat) (rest : List Nat)
    (T : GoType) (h : (registerAll P msgs).1.reversedMap.lookup tag = some T) :
    ∃ t, T = .named t ∧ zeroValue T = .data t [] ∧
      (∀ e, P.Unmarshal rest (.addr (zeroValue T)) = .error e →
        Unmarshal P (registerAll P msgs).1 (tag :: rest) = .ret (none, some (.proto e))) ∧
      (∀ g, P.Unmarshal rest (.addr (zeroValue T)) = .ok g →
        Unmarshal P (registerAll P msgs).1 (tag :: rest)
          = .ret (some (.addr (.data t g)), none)) := by
  have hi := registerAll_rev_implements P msgs tag T h
  obtain ⟨t, rfl⟩ := implements_ptr_named P T hi
  have hU := Unmarshal_named P _ tag t rest h hi
  refine ⟨t, rfl, rfl, ?_, ?_⟩
  · intro e he
    simp only [zeroValue] at he
    rw [hU, he]
  · intro g hg
    simp only [zeroValue] at hg
    rw [hU, hg]

/-- C13 at a sample input: the frame 1, 7, 8 with the types 0, 1, 2 registered. -/
theorem decode_result_witness :
    ∃ t, GoType.named 1 = .named t ∧ zeroValue (.named 1) = .data t [] ∧
      (∀ e, fieldsLib.Unmarshal [7, 8] (.addr (zeroValue (.named 1))) = .error e →
        Unmarshal fieldsLib (registerAll fieldsLib [handle 0 [], handle 1 [], handle 2 []]).1
          (1 :: [7, 8]) = .ret (none, some (.proto e))) ∧
      (∀ g, fieldsLib.Unmarshal [7, 8] (.addr (zeroValue (.named 1))) = .ok g →
        Unmarshal fieldsLib (registerAll fieldsLib [handle 0 [], handle 1 [], handle 2 []]).1
          (1 :: [7, 8]) = .ret (some (.addr (.data t g)), none)) :=
  decode_result fieldsLib [handle 0 [], handle 1 [], handle 2 []] 1 [7, 8] (.named 1)
    (by decide)

/-- C14, serialization failure: in every codec built from the fresh codec by
`RegisterMessage` calls, for a message whose dynamic type is a key of the handle map and
on which the serializer returns the error `e`, `Marshal` returns no bytes and the error
`e` itself; and in any codec, whenever `Marshal` returns, it returns bytes exactly when
it returns no error. -/
theorem serialization_failure (P : ProtoLib) (msgs : List Iface) (v : GoValue) (e : String)
    (hreg : ((registerAll P msgs).1.registeredMessagePtrs.lookup v.typeOf).isSome = true)
    (herr : P.Marshal v = .error e) :
    Marshal P (registerAll P msgs).1 (some v) = .ret (none, some (.proto e)) ∧
    ∀ (c0 : GoGoProtobufCodec) (msg0 : Iface) (r : Option (List Nat)) (err : Option Err),
      Marshal P c0 msg0 = .ret (r, err) → (r.isSome = true ↔ err = none) := by
  constructor
  · obtain ⟨tag, htag⟩ := Option.isSome_iff_exists.1 hreg
    obtain ⟨T, -, -, hi⟩ := (registerAll_inv P msgs).ptrs_key v.typeOf tag htag
    rw [Marshal_registered P _ v tag htag hi, herr]
  · intro c0 msg0 r err h
    rcases Marshal_success P c0 msg0 r err h with
      ⟨w, t, -, rfl, rfl⟩ | ⟨w, tag, -, -, ⟨x, -, rfl, rfl⟩ | ⟨b, -, rfl, rfl⟩⟩ <;> simp

/-- C14 at a sample input: the nil handle of the registered type 1, which the sample
serializer refuses. -/
theorem serialization_failure_witness :
    Marshal fieldsLib (registerAll fieldsLib [handle 0 [], handle 1 [], handle 2 []]).1
      (some (.nilptr (.named 1)))
      = .ret (none, some (.proto "proto: Marshal called with nil")) :=
  (serialization_failure fieldsLib [handle 0 [], handle 1 [], handle 2 []] (.nilptr (.named 1))
    "proto: Marshal called with nil" (by decide) rfl).1

/-- C15, type discrimination: with handles of two different message types Ping (`p`)
and Pong (`q`) registered in that order, `Marshal` of a handle to a Ping instance that
the serializer turns into the payload `b` returns the frame `0 :: b`, and `Unmarshal`
of that frame runs the deserializer on `b` and a zero Ping and returns its error or a
handle to a Ping instance, so no message it returns is a Pong; and in any codec reached
with at most 256 successful registrations, the frames `Marshal` returns for two messages
of different dynamic types differ in their first byte. -/
theorem type_discrimination (P : ProtoLib) :
    (∀ (p q : Nat) (fp fq f b : List Nat), p ≠ q →
      P.implements (.ptr (.named p)) = true → P.implements (.ptr (.named q)) = true →
      P.Marshal (.addr (.data p f)) = .ok b →
      Marshal P (registerAll P [handle p fp, handle q fq]).1 (handle p f)
        = .ret (some (0 :: b), none) ∧
      Unmarshal P (registerAll P [handle p fp, handle q fq]).1 (0 :: b)
        = (match P.Unmarshal b (.addr (.data p [])) with
          | .error e => .ret (none, some (.proto e))
          | .ok g => .ret (some (.addr (.data p g)), none)) ∧
      ∀ m err, Unmarshal P (registerAll P [handle p fp, handle q fq]).1 (0 :: b)
          = .ret (some m, err) →
        m.typeOf = .ptr (.named p) ∧ m.typeOf ≠ .ptr (.named q)) ∧
    (∀ (msgs : List Iface) (v w : GoValue) (fv fw : List Nat),
      (registerAll P msgs).2 ≤ 256 → v.typeOf ≠ w.typeOf →
      Marshal P (registerAll P msgs).1 (some v) = .ret (some fv, none) →
      Marshal P (registerAll P msgs).1 (some w) = .ret (some fw, none) →
      fv.head? ≠ fw.head?) := by
  constructor
  · intro p q fp fq f b hpq hp hq hser
    rw [registerAll_pair P p q fp fq hpq hp hq]
    have hqp : ¬ q = p := fun h => hpq h.symm
    have hl : (⟨[(GoType.ptr (.named q), 1), (GoType.ptr (.named p), 0)]⟩ :
        GoMap GoType Nat).lookup (GoValue.addr (.data p f)).typeOf = some 0 := by
      simp [GoMap.lookup, List.find?, GoValue.typeOf, hqp]
    have hr : (⟨[(1, GoType.named q), (0, GoType.named p)]⟩ : GoMap Nat GoType).lookup 0
        = some (.named p) := by
      simp [GoMap.lookup, List.find?]
    have hU := Unmarshal_named P
      { registeredMessages := ⟨[(.named q, 1), (.named p, 0)]⟩
        reversedMap := ⟨[(1, .named q), (0, .named p)]⟩
        registeredMessagePtrs := ⟨[(.ptr (.named q), 1), (.ptr (.named p), 0)]⟩ } 0 p b hr hp
    refine ⟨?_, hU, ?_⟩
    · simp only [handle]
      rw [Marshal_registered P _ _ 0 hl (by simpa [GoValue.typeOf] using hp), hser]
    · intro m err hm
      rw [hU] at hm
      cases hd : P.Unmarshal b (.addr (.data p [])) with
      | error e => simp [hd] at hm
      | ok g =>
        simp only [hd, Outcome.ret.injEq, Prod.mk.injEq, Option.some.injEq] at hm
        obtain ⟨rfl, -⟩ := hm
        simp [GoValue.typeOf, hpq]
  · intro msgs v w fv fw hn hvw hv hw
    have inv := registerAll_inv P msgs
    rcases Marshal_success P _ _ _ _ hv with
      ⟨_, _, -, h0, -⟩ | ⟨v1, t1, hv1, hl1, ⟨_, -, h0, -⟩ | ⟨b1, -, hf1, -⟩⟩
    · exact Option.noConfusion h0
    · exact Option.noConfusion h0
    rcases Marshal_success P _ _ _ _ hw with
      ⟨_, _, -, h0, -⟩ | ⟨w1, t2, hw1, hl2, ⟨_, -, h0, -⟩ | ⟨b2, -, hf2, -⟩⟩
    · exact Option.noConfusion h0
    · exact Option.noConfusion h0
    cases hv1
    cases hw1
    obtain ⟨T1, hT1, hr1, -⟩ := inv.ptrs_key _ _ hl1
    obtain ⟨T2, hT2, hr2, -⟩ := inv.ptrs_key _ _ hl2
    simp only [Option.some.injEq] at hf1 hf2
    subst hf1 hf2
    simp only [List.head?_cons, ne_eq, Option.some.injEq]
    intro ht
    subst ht
    have h3 := (inv.rev_lookup hn T1 t1).2 hr1
    have h4 := (inv.rev_lookup hn T2 t1).2 hr2
    rw [h3] at h4
    have h5 : T1 = T2 := Option.some.inj h4
    exact hvw (by rw [hT1, hT2, h5])

/-- C15 at a sample input: Ping is type 0, Pong is type 1, the instance has the field
7. -/
theorem type_discrimination_witness :
    Marshal fieldsLib (registerAll fieldsLib [handle 0 [], handle 1 []]).1 (handle 0 [7])
      = .ret (some (0 :: [7]), none) ∧
    Unmarshal fieldsLib (registerAll fieldsLib [handle 0 [], handle 1 []]).1 (0 :: [7])
      = (match fieldsLib.Unmarshal [7] (.addr (.data 0 [])) with
        | .error e => .ret (none, some (.proto e))
        | .ok g => .ret (some (.addr (.data 0 g)), none)) ∧
    ∀ m err, Unmarshal fieldsLib (registerAll fieldsLib [handle 0 [], handle 1 []]).1 (0 :: [7])
        = .ret (some m, err) →
      m.typeOf = .ptr (.named 0) ∧ m.typeOf ≠ .ptr (.named 1) :=
  (type_discrimination fieldsLib).1 0 1 [] [] [7] [7] (by decide) rfl rfl rfl

/-- C16, cross registration order: let X be the codec with Ping (`p`) then Pong (`q`)
registered and Y the codec with Pong then Ping.  For a Ping instance that the serializer
turns into the payload `b`, `Marshal` on X returns the frame `0 :: b`, and `Unmarshal`
on Y of that frame runs the deserializer on `b` and a zero Pong and returns its error
or a handle to a Pong instance, so no message it returns is a Ping.  In any codec, two
frames with the same first byte that `Unmarshal` decodes give messages of the same
type. -/
theorem cross_registration_order (P : ProtoLib) :
    (∀ (p q : Nat) (fp fq gp gq f b : List Nat), p ≠ q →
      P.implements (.ptr (.named p)) = true → P.implements (.ptr (.named q)) = true →
      P.Marshal (.addr (.data p f)) = .ok b →
      Marshal P (registerAll P [handle p fp, handle q fq]).1 (handle p f)
        = .ret (some (0 :: b), none) ∧
      Unmarshal P (registerAll P [handle q gq, handle p gp]).1 (0 :: b)
        = (match P.Unmarshal b (.addr (.data q [])) with
          | .error e => .ret (none, some (.proto e))
          | .ok g => .ret (some (.addr (.data q g)), none)) ∧
      ∀ m err, Unmarshal P (registerAll P [handle q gq, handle p gp]).1 (0 :: b)
          = .ret (some m, err) →
        m.typeOf = .ptr (.named q) ∧ m.typeOf ≠ .ptr (.named p)) ∧
    (∀ (c : GoGoProtobufCodec) (tag : Nat) (r1 r2 : List Nat) (m1 m2 : GoValue)
      (e1 e2 : Option Err),
      Unmarshal P c (tag :: r1) = .ret (some m1, e1) →
      Unmarshal P c (tag :: r2) = .ret (some m2, e2) → m1.typeOf = m2.typeOf) := by
  constructor
  · intro p q fp fq gp gq f b hpq hp hq hser
    have hqp : q ≠ p := fun h => hpq h.symm
    rw [registerAll_pair P p q fp fq hpq hp hq, registerAll_pair P q p gq gp hqp hq hp]
    have hl : (⟨[(GoType.ptr (.named q), 1), (GoType.ptr (.named p), 0)]⟩ :
        GoMap GoType Nat).lookup (GoValue.addr (.data p f)).typeOf = some 0 := by
      simp [GoMap.lookup, List.find?, GoValue.typeOf, hqp]
    have hr : (⟨[(1, GoType.named p), (0, GoType.named q)]⟩ : GoMap Nat GoType).lookup 0
        = some (.named q) := by
      simp [GoMap.lookup, List.find?]
    have hU := Unmarshal_named P
      { registeredMessages := ⟨[(.named p, 1), (.named q, 0)]⟩
        reversedMap := ⟨[(1, .named p), (0, .named q)]⟩
        registeredMessagePtrs := ⟨[(.ptr (.named p), 1), (.ptr (.named q), 0)]⟩ } 0 q b hr hq
    refine ⟨?_, hU, ?_⟩
    · simp only [handle]
      rw [Marshal_registered P _ _ 0 hl (by simpa [GoValue.typeOf] using hp), hser]
    · intro m err hm
      rw [hU] at hm
      cases hd : P.Unmarshal b (.addr (.data q [])) with
      | error e => simp [hd] at hm
      | ok g =>
        simp only [hd, Outcome.ret.injEq, Prod.mk.injEq, Option.some.injEq] at hm
        obtain ⟨rfl, -⟩ := hm
        simp [GoValue.typeOf, hqp]
  · intro c tag r1 r2 m1 m2 e1 e2 h1 h2
    simp only [Unmarshal, binaryRead] at h1 h2
    cases hN : New (c.reversedMap.lookup tag) with
    | panic x => simp [hN, Outcome.bind] at h1
    | ret msg =>
      simp only [hN, Outcome.bind] at h1 h2
      by_cases hi : P.implements msg.typeOf = true
      · simp only [hi, if_true, protoUnmarshal] at h1 h2
        cases hd1 : P.Unmarshal r1 msg with
        | error x => simp [hd1] at h1
        | ok g1 =>
          cases hd2 : P.Unmarshal r2 msg with
          | error x => simp [hd2] at h2
          | ok g2 =>
            simp only [hd1, hd2, Outcome.ret.injEq, Prod.mk.injEq, Option.some.injEq] at h1 h2
            rw [← h1.1, ← h2.1, typeOf_setFields, typeOf_setFields]
      · simp [hi] at h1

/-- C16 at a sample input: Ping is type 0, Pong is type 1, the instance has the field
7. -/
theorem cross_registration_order_witness :
    Marshal fieldsLib (registerAll fieldsLib [handle 0 [], handle 1 []]).1 (handle 0 [7])
      = .ret (some (0 :: [7]), none) ∧
    Unmarshal fieldsLib (registerAll fieldsLib [handle 1 [], handle 0 []]).1 (0 :: [7])
      = (match fieldsLib.Unmarshal [7] (.addr (.data 1 [])) with
        | .error e => .ret (none, some (.proto e))
        | .ok g => .ret (some (.addr (.data 1 g)), none)) ∧
    ∀ m err, Unmarshal fieldsLib (registerAll fieldsLib [handle 1 [], handle 0 []]).1 (0 :: [7])
        = .ret (some m, err) →
      m.typeOf = .ptr (.named 1) ∧ m.typeOf ≠ .ptr (.named 0) :=
  (cross_registration_order fieldsLib).1 0 1 [] [] [] [] [7] [7] (by decide) rfl rfl rfl

/-! ## Arguments the codec does not survive -/

/-- `Marshal` on a value that is not a pointer, in any codec built by `RegisterMessage`
calls: the handle map has pointer types only, and `Elem` panics on the value while the
error is being built. -/
theorem Marshal_value_form (P : ProtoLib) (msgs : List Iface) (t : Nat) (f : List Nat) :
    Marshal P (registerAll P msgs).1 (some (.data t f)) = .panic .elemOnNonPointer := by
  have hl := (registerAll_inv P msgs).ptrs_lookup_named t
  simp [Marshal, TypeOf, GoValue.typeOf, hl, ValueOf, Value.Elem, Outcome.bind]

/-- `RegisterMessage` on the untyped nil, in any codec. -/
theorem RegisterMessage_nil (P : ProtoLib) (c : GoGoProtobufCodec) :
    RegisterMessage P c none = .panic .typeOnZeroValue := rfl

/-- `RegisterMessage` on a nil pointer, in any codec. -/
theorem RegisterMessage_nilptr (P : ProtoLib) (c : GoGoProtobufCodec) (e : GoType) :
    RegisterMessage P c (some (.nilptr e)) = .panic .typeOnZeroValue := rfl

/-- C19 as stated fails: with the types 0, 1, 2 registered, `Marshal` of a value (not a
handle) of the registered type 1, and of a value of the unregistered type 9, panics in
`reflect.Value.Elem` while it builds the unknown-type error, so it returns no error
value, the unknown-type error included. -/
theorem marshal_value_aborts :
    threeTypes.registeredMessages.lookup (.named 1) = some 1 ∧
    Marshal fieldsLib threeTypes (some (.data 1 [7])) = .panic .elemOnNonPointer ∧
    threeTypes.registeredMessages.lookup (.named 9) = none ∧
    Marshal fieldsLib threeTypes (some (.data 9 [7])) = .panic .elemOnNonPointer ∧
    (¬ ∃ r e, Marshal fieldsLib threeTypes (some (.data 1 [7])) = .ret (r, e)) ∧
    ¬ ∃ r e, Marshal fieldsLib threeTypes (some (.data 9 [7])) = .ret (r, e) := by
  have h1 : Marshal fieldsLib threeTypes (some (.data 1 [7])) = .panic .elemOnNonPointer := by
    decide
  have h9 : Marshal fieldsLib threeTypes (some (.data 9 [7])) = .panic .elemOnNonPointer := by
    decide
  refine ⟨by decide, h1, by decide, h9, ?_, ?_⟩
  · rintro ⟨r, e, h⟩
    rw [h1] at h
    exact Outcome.noConfusion h
  · rintro ⟨r, e, h⟩
    rw [h9] at h
    exact Outcome.noConfusion h

/-- C19, encode of a non-handle message, as amended: `Marshal` takes pointers.  In every
codec built from the fresh codec by `RegisterMessage` calls, for every library and every
message passed as a value rather than as a handle, of a registered type or not, the
message's type is no key of the handle map, and `Marshal` returns neither bytes nor an
error value: the call panics in `reflect.Value.Elem` while the unknown-type error is
built.  The unknown-type error is what a handle to an instance gets when its handle type
is no key of the handle map. -/
theorem marshal_value_outside_domain (P : ProtoLib) (msgs : List Iface) (t : Nat)
    (f : List Nat) :
    (registerAll P msgs).1.registeredMessagePtrs.lookup (GoValue.data t f).typeOf = none ∧
    Marshal P (registerAll P msgs).1 (some (.data t f)) = .panic .elemOnNonPointer ∧
    (∀ r e, Marshal P (registerAll P msgs).1 (some (.data t f)) ≠ .ret (r, e)) ∧
    ∀ w : GoValue, (registerAll P msgs).1.registeredMessagePtrs.lookup (.ptr w.typeOf) = none →
      Marshal P (registerAll P msgs).1 (some (.addr w))
        = .ret (none, some (.unknownType w.typeOf)) := by
  have hp := Marshal_value_form P msgs t f
  refine ⟨(registerAll_inv P msgs).ptrs_lookup_named t, hp, ?_, ?_⟩
  · intro r e h
    rw [hp] at h
    exact Outcome.noConfusion h
  · intro w hw
    simp [Marshal, TypeOf, GoValue.typeOf, hw, ValueOf, Value.Elem, Value.Type, Outcome.bind]

/-- C19 as amended, at a sample input: a value of the registered type 1, and a handle to
an instance of the unregistered type 9, with the types 0, 1, 2 registered. -/
theorem marshal_value_outside_domain_witness :
    Marshal fieldsLib (registerAll fieldsLib [handle 0 [], handle 1 [], handle 2 []]).1
      (some (.data 1 [7])) = .panic .elemOnNonPointer ∧
    Marshal fieldsLib (registerAll fieldsLib [handle 0 [], handle 1 [], handle 2 []]).1
      (some (.addr (.data 9 []))) = .ret (none, some (.unknownType (GoValue.data 9 []).typeOf)) :=
  ⟨(marshal_value_outside_domain fieldsLib [handle 0 [], handle 1 [], handle 2 []] 1 [7]).2.1,
    (marshal_value_outside_domain fieldsLib [handle 0 [], handle 1 [], handle 2 []] 1
      [7]).2.2.2 (.data 9 []) (by decide)⟩

/-- C20, registration is total: with the types 0, 1, 2 registered, `RegisterMessage` of
the untyped nil, and of the nil handle of the unregistered type 7 whose handle type is a
`proto.Message`, returns neither success nor an error: both calls panic in
`reflect.Value.Type` on the zero Value while the concrete type is determined. -/
theorem register_nil_aborts :
    RegisterMessage fieldsLib threeTypes none = .panic .typeOnZeroValue ∧
    threeTypes.registeredMessages.lookup (.named 7) = none ∧
    fieldsLib.isMessage (some (.nilptr (.named 7))) = true ∧
    RegisterMessage fieldsLib threeTypes (some (.nilptr (.named 7)))
      = .panic .typeOnZeroValue := by
  decide

/-! ## Registration and the tags already assigned -/

/-- `RegisterMessage` on a message that is not a nil pointer and whose concrete type is
registered, whatever else holds of the message. -/
theorem RegisterMessage_registered (P : ProtoLib) (c : GoGoProtobufCodec) (v : GoValue)
    (hv : ∀ e, v ≠ .nilptr e)
    (hreg : (c.registeredMessages.lookup (concreteTypeOf v)).isSome = true) :
    RegisterMessage P c (some v) = .ret (c, some (.alreadyRegistered (concreteTypeOf v))) := by
  cases v with
  | data t f =>
    simp only [concreteTypeOf, GoValue.typeOf] at hreg ⊢
    simp [RegisterMessage, registeredTypes, ValueOf, Value.Kind, Value.Type, Outcome.bind,
      PtrTo, GoValue.typeOf, hreg]
  | nilptr e => exact absurd rfl (hv e)
  | addr w =>
    simp only [concreteTypeOf, GoValue.typeOf] at hreg ⊢
    simp [RegisterMessage, registeredTypes, ValueOf, Value.Kind, Value.Type, Outcome.bind,
      Indirect, Value.Elem, GoValue.typeOf, hreg]

/-- One returning `RegisterMessage` call, on a codec that satisfies the invariant, keeps
every entry of the type map and of the handle map. -/
theorem RegisterMessage_keeps (P : ProtoLib) (c c1 : GoGoProtobufCodec) (n : Nat)
    (msg : Iface) (e : Option Err) (inv : RegistryInv P c n)
    (h : RegisterMessage P c msg = .ret (c1, e)) :
    (∀ T t, c.registeredMessages.lookup T = some t →
      c1.registeredMessages.lookup T = some t) ∧
    (∀ X t, c.registeredMessagePtrs.lookup X = some t →
      c1.registeredMessagePtrs.lookup X = some t) := by
  cases e with
  | some e =>
    have := RegisterMessage_err P c c1 msg e h
    subst this
    exact ⟨fun _ _ h1 => h1, fun _ _ h1 => h1⟩
  | none =>
    obtain ⟨v, -, hnew, -, rfl⟩ := RegisterMessage_ok P c c1 msg h
    constructor
    · intro T t hT
      have hne : T ≠ concreteTypeOf v := by
        rintro rfl
        rw [hnew] at hT
        exact Option.noConfusion hT
      simp only
      rw [GoMap.lookup_store_ne _ _ _ _ hne, hT]
    · intro X t hX
      obtain ⟨T, rfl, hT, -⟩ := inv.ptrs_key X t hX
      have hne : GoType.ptr T ≠ .ptr (concreteTypeOf v) := by
        intro hEq
        have h2 : T = concreteTypeOf v := GoType.ptr.inj hEq
        rw [h2, hnew] at hT
        exact Option.noConfusion hT
      simp only
      rw [GoMap.lookup_store_ne _ _ _ _ hne, hX]

theorem foldl_registerStep_keeps (P : ProtoLib) (more : List Iface)
    (s : GoGoProtobufCodec × Nat) (inv : RegistryInv P s.1 s.2) :
    (∀ T t, s.1.registeredMessages.lookup T = some t →
      (more.foldl (registerStep P) s).1.registeredMessages.lookup T = some t) ∧
    (∀ X t, s.1.registeredMessagePtrs.lookup X = some t →
      (more.foldl (registerStep P) s).1.registeredMessagePtrs.lookup X = some t) := by
  induction more generalizing s with
  | nil => exact ⟨fun _ _ h => h, fun _ _ h => h⟩
  | cons m ms ih =>
    have inv1 := registerStep_inv P s m inv
    obtain ⟨k1, k2⟩ := ih (registerStep P s m) inv1
    have hstep : (∀ T t, s.1.registeredMessages.lookup T = some t →
          (registerStep P s m).1.registeredMessages.lookup T = some t) ∧
        (∀ X t, s.1.registeredMessagePtrs.lookup X = some t →
          (registerStep P s m).1.registeredMessagePtrs.lookup X = some t) := by
      unfold registerStep
      cases hr : RegisterMessage P s.1 m with
      | panic p => exact ⟨fun _ _ h => h, fun _ _ h => h⟩
      | ret r =>
        obtain ⟨c1, e⟩ := r
        have hk := RegisterMessage_keeps P s.1 c1 s.2 m e inv hr
        cases e with
        | none => exact hk
        | some e => exact hk
    exact ⟨fun T t h => k1 T t (hstep.1 T t h), fun X t h => k2 X t (hstep.2 X t h)⟩

/-- C22, assigned tags are stable: in every codec built from the fresh codec by
`RegisterMessage` calls, however many, a further `RegisterMessage` call that returns,
with success or with an error, leaves every type of the type map and every handle type
of the handle map with the tag it had; and so does every further run of calls, so the
two maps only gain keys. -/
theorem tags_stable (P : ProtoLib) (msgs : List Iface) (msg : Iface)
    (c1 : GoGoProtobufCodec) (e : Option Err)
    (h : RegisterMessage P (registerAll P msgs).1 msg = .ret (c1, e)) :
    (∀ T t, (registerAll P msgs).1.registeredMessages.lookup T = some t →
      c1.registeredMessages.lookup T = some t) ∧
    (∀ X t, (registerAll P msgs).1.registeredMessagePtrs.lookup X = some t →
      c1.registeredMessagePtrs.lookup X = some t) ∧
    (∀ more T t, (registerAll P msgs).1.registeredMessages.lookup T = some t →
      (registerAll P (msgs ++ more)).1.registeredMessages.lookup T = some t) ∧
    (∀ more X t, (registerAll P msgs).1.registeredMessagePtrs.lookup X = some t →
      (registerAll P (msgs ++ more)).1.registeredMessagePtrs.lookup X = some t) := by
  have inv := registerAll_inv P msgs
  obtain ⟨k1, k2⟩ := RegisterMessage_keeps P _ c1 _ msg e inv h
  refine ⟨k1, k2, ?_, ?_⟩
  · intro more T t hT
    have h3 := (foldl_registerStep_keeps P more (registerAll P msgs) inv).1 T t hT
    simpa [registerAll, List.foldl_append] using h3
  · intro more X t hX
    have h3 := (foldl_registerStep_keeps P more (registerAll P msgs) inv).2 X t hX
    simpa [registerAll, List.foldl_append] using h3

/-- C22 at a sample input: type 7 registered after the types 0, 1, 2. -/
theorem tags_stable_witness :
    ∃ c1, RegisterMessage fieldsLib (registerAll fieldsLib [handle 0 [], handle 1 [], handle 2 []]).1
        (handle 7 []) = .ret (c1, none) ∧
      (∀ T t, (registerAll fieldsLib
          [handle 0 [], handle 1 [], handle 2 []]).1.registeredMessages.lookup T = some t →
        c1.registeredMessages.lookup T = some t) ∧
      (∀ X t, (registerAll fieldsLib
          [handle 0 [], handle 1 [], handle 2 []]).1.registeredMessagePtrs.lookup X = some t →
        c1.registeredMessagePtrs.lookup X = some t) :=
  ⟨_, rfl, (tags_stable fieldsLib [handle 0 [], handle 1 [], handle 2 []] (handle 7 []) _ none
      rfl).1,
    (tags_stable fieldsLib [handle 0 [], handle 1 [], handle 2 []] (handle 7 []) _ none
      rfl).2.1⟩

/-- C24, error precedence: in any codec in which the concrete type of a message (a
value, or a handle to an instance) is registered, `RegisterMessage` on that message,
when the message is not a `proto.Message`, returns the already-registered error and the
codec unchanged, and not the not-a-protobuf-message error, which the same message gets
in any codec where its concrete type is not registered. -/
theorem duplicate_before_capability (P : ProtoLib) (c : GoGoProtobufCodec) (v : GoValue)
    (hv : ∀ e, v ≠ .nilptr e)
    (hreg : (c.registeredMessages.lookup (concreteTypeOf v)).isSome = true)
    (hcap : P.isMessage (some v) = false) :
    RegisterMessage P c (some v) = .ret (c, some (.alreadyRegistered (concreteTypeOf v))) ∧
    (∀ c1 T, RegisterMessage P c (some v) ≠ .ret (c1, some (.notProtobuf T))) ∧
    ∀ c0 : GoGoProtobufCodec, c0.registeredMessages.lookup (concreteTypeOf v) = none →
      RegisterMessage P c0 (some v) = .ret (c0, some (.notProtobuf (concreteTypeOf v))) := by
  have hr := RegisterMessage_registered P c v hv hreg
  refine ⟨hr, ?_, ?_⟩
  · intro c1 T h
    rw [hr] at h
    simp at h
  · intro c0 hnew
    exact RegisterMessage_not_message P c0 v hv hnew hcap

/-- C24 at a sample input: a value of the registered type 1, for a library in which
only the handle form is a message. -/
theorem duplicate_before_capability_witness :
    fieldsLib.isMessage (some (.data 1 [4])) = false ∧
    fieldsLib.isMessage (some (.addr (.data 1 [4]))) = true ∧
    RegisterMessage fieldsLib threeTypes (some (.data 1 [4]))
      = .ret (threeTypes, some (.alreadyRegistered (concreteTypeOf (.data 1 [4])))) :=
  ⟨rfl, rfl, (duplicate_before_capability fieldsLib threeTypes (.data 1 [4])
    (fun e h => GoValue.noConfusion h) (by decide) rfl).1⟩

/-! ## Decoding, then encoding again -/

/-- A return of `Unmarshal` with a message. -/
theorem Unmarshal_success (P : ProtoLib) (c : GoGoProtobufCodec) (d : List Nat)
    (m : GoValue) (e : Option Err) (h : Unmarshal P c d = .ret (some m, e)) :
    ∃ tag rest T f, d = tag :: rest ∧ c.reversedMap.lookup tag = some T ∧
      P.implements (.ptr T) = true ∧ P.Unmarshal rest (.addr (zeroValue T)) = .ok f ∧
      m = setFields (.addr (zeroValue T)) f ∧ e = none := by
  cases d with
  | nil => simp [Unmarshal, binaryRead] at h
  | cons tag rest =>
    cases hl : c.reversedMap.lookup tag with
    | none =>
      rw [Unmarshal_unknown_tag P c tag rest hl] at h
      exact Outcome.noConfusion h
    | some T =>
      by_cases hi : P.implements (.ptr T) = true
      · rw [Unmarshal_registered P c tag rest T hl hi] at h
        simp only [protoUnmarshal] at h
        cases hd : P.Unmarshal rest (.addr (zeroValue T)) with
        | error x => simp [hd] at h
        | ok f =>
          simp only [hd, Outcome.ret.injEq, Prod.mk.injEq, Option.some.injEq] at h
          exact ⟨tag, rest, T, f, rfl, hl, hi, hd, h.1.symm, h.2.symm⟩
      · simp [Unmarshal, binaryRead, hl, New, Outcome.bind, GoValue.typeOf,
          typeOf_zeroValue, hi] at h

/-- C23, re-encode preserves the tag: in a codec built from the fresh codec by
`RegisterMessage` calls of which at most 256 succeeded, when `Unmarshal` of `d` succeeds
with the message `m`, the dynamic type of `m` is a key of the handle map, its tag there
is the first byte of `d`, and whenever the serializer succeeds on `m` with a payload `b`,
`Marshal` of `m` succeeds with the frame of that first byte followed by `b`. -/
theorem reencode_preserves_tag (P : ProtoLib) (msgs : List Iface) (d : List Nat)
    (m : GoValue) (hn : (registerAll P msgs).2 ≤ 256)
    (hU : Unmarshal P (registerAll P msgs).1 d = .ret (some m, none)) :
    ((registerAll P msgs).1.registeredMessagePtrs.lookup m.typeOf).isSome = true ∧
    ∃ tag rest, d = tag :: rest ∧
      (registerAll P msgs).1.registeredMessagePtrs.lookup m.typeOf = some tag ∧
      ∀ b, P.Marshal m = .ok b →
        Marshal P (registerAll P msgs).1 (some m) = .ret (some (tag :: b), none) ∧
        (tag :: b).head? = d.head? := by
  have inv := registerAll_inv P msgs
  obtain ⟨tag, rest, T, f, rfl, hl, hi, -, rfl, -⟩ := Unmarshal_success P _ d m none hU
  have hty : (setFields (.addr (zeroValue T)) f).typeOf = .ptr T := by
    rw [typeOf_setFields]
    simp only [GoValue.typeOf, typeOf_zeroValue]
  have hreg := (inv.rev_lookup hn T tag).1 hl
  have hptr : (registerAll P msgs).1.registeredMessagePtrs.lookup
      (setFields (.addr (zeroValue T)) f).typeOf = some tag := by
    rw [hty, inv.ptrs_lookup, hreg]
  refine ⟨by rw [hptr]; rfl, tag, rest, rfl, hptr, ?_⟩
  intro b hb
  refine ⟨?_, rfl⟩
  rw [Marshal_registered P _ _ tag hptr (by rw [hty]; exact hi), hb]

/-- C23 at a sample input: the frame 1, 7, 8 with the types 0, 1, 2 registered. -/
theorem reencode_preserves_tag_witness :
    ((registerAll fieldsLib
        [handle 0 [], handle 1 [], handle 2 []]).1.registeredMessagePtrs.lookup
      (GoValue.addr (.data 1 [7, 8])).typeOf).isSome = true ∧
    ∃ tag rest, [1, 7, 8] = tag :: rest ∧
      (registerAll fieldsLib
          [handle 0 [], handle 1 [], handle 2 []]).1.registeredMessagePtrs.lookup
        (GoValue.addr (.data 1 [7, 8])).typeOf = some tag ∧
      ∀ b, fieldsLib.Marshal (.addr (.data 1 [7, 8])) = .ok b →
        Marshal fieldsLib (registerAll fieldsLib [handle 0 [], handle 1 [], handle 2 []]).1
          (some (.addr (.data 1 [7, 8]))) = .ret (some (tag :: b), none) ∧
        (tag :: b).head? = [1, 7, 8].head? :=
  reencode_preserves_tag fieldsLib [handle 0 [], handle 1 [], handle 2 []] [1, 7, 8]
    (.addr (.data 1 [7, 8])) (by decide) (by decide)

/-! ## Past the 256th registration -/

/-- C4, duplicate rejection: with the types 0, 1, 2 registered, `RegisterMessage` with a
value of the registered type 1 and with a handle to an instance of it returns the
already-registered error and the codec unchanged; with the nil handle of type 1, the
same type in handle form, it returns nothing: `reflect.Indirect` gives the zero Value
and `Type` panics on it, before the duplicate check. -/
theorem duplicate_nil_handle_aborts :
    threeTypes.registeredMessages.lookup (.named 1) = some 1 ∧
    RegisterMessage fieldsLib threeTypes (some (.data 1 [4]))
      = .ret (threeTypes, some (.alreadyRegistered (.named 1))) ∧
    RegisterMessage fieldsLib threeTypes (some (.addr (.data 1 [4])))
      = .ret (threeTypes, some (.alreadyRegistered (.named 1))) ∧
    TypeOf (some (.nilptr (.named 1))) = TypeOf (some (.addr (.data 1 [4]))) ∧
    RegisterMessage fieldsLib threeTypes (some (.nilptr (.named 1)))
      = .panic .typeOnZeroValue := by
  decide

/-- C11, registration postcondition: with the types 0, 1, 2 registered, type 7 is not
registered and its handle type is a `proto.Message`; `RegisterMessage` with a handle to
an instance of type 7 returns no error and stores 7 under tag 3 in the three maps; with
the nil handle of type 7, which passes the same capability test, it returns nothing and
stores nothing: it panics in `reflect.Value.Type` on the zero Value. -/
theorem register_new_nil_handle_aborts :
    threeTypes.registeredMessages.len = 3 ∧
    threeTypes.registeredMessages.lookup (.named 7) = none ∧
    fieldsLib.isMessage (some (.nilptr (.named 7))) = true ∧
    (∃ c1, RegisterMessage fieldsLib threeTypes (handle 7 []) = .ret (c1, none) ∧
      c1.registeredMessages.lookup (.named 7) = some 3 ∧
      c1.reversedMap.lookup 3 = some (.named 7) ∧
      c1.registeredMessagePtrs.lookup (.ptr (.named 7)) = some 3) ∧
    RegisterMessage fieldsLib threeTypes (some (.nilptr (.named 7)))
      = .panic .typeOnZeroValue := by
  refine ⟨by decide, by decide, rfl, ⟨_, rfl, by decide, by decide, by decide⟩, rfl⟩

/-- C12, not serializable: for a program without message types and the fresh codec,
type 7 is not registered and neither its nil handle nor the untyped nil is a
`proto.Message`; `RegisterMessage` with a handle to an instance of type 7 returns the
not-a-protobuf-message error and the codec unchanged; with the nil handle of type 7, and
with the untyped nil, it returns nothing: it panics in `reflect.Value.Type` on the zero
Value, before the capability test. -/
theorem not_serializable_nil_aborts :
    NewGoGoProtobufCodec.registeredMessages.lookup (.named 7) = none ∧
    plainLib.isMessage (some (.nilptr (.named 7))) = false ∧
    plainLib.isMessage none = false ∧
    RegisterMessage plainLib NewGoGoProtobufCodec (some (.addr (.data 7 [])))
      = .ret (NewGoGoProtobufCodec, some (.notProtobuf (.named 7))) ∧
    RegisterMessage plainLib NewGoGoProtobufCodec (some (.nilptr (.named 7)))
      = .panic .typeOnZeroValue ∧
    RegisterMessage plainLib NewGoGoProtobufCodec none = .panic .typeOnZeroValue := by
  decide

/-- C18, form-independent registration: for a library of value-receiver messages and the
fresh codec, a value of type 7, a handle to an instance of type 7 and the nil handle of
type 7 are all `proto.Message`s; `RegisterMessage` with the value and with the handle to
an instance succeed with the same codec; with the nil handle, the handle form of the
same type, it does not succeed: it panics in `reflect.Value.Type` on the zero Value. -/
theorem form_independence_nil_handle_aborts :
    NewGoGoProtobufCodec.registeredMessages.lookup (.named 7) = none ∧
    valueLib.isMessage (some (.data 7 [1])) = true ∧
    valueLib.isMessage (some (.addr (.data 7 [2]))) = true ∧
    valueLib.isMessage (some (.nilptr (.named 7))) = true ∧
    (∃ c1, RegisterMessage valueLib NewGoGoProtobufCodec (some (.data 7 [1])) = .ret (c1, none) ∧
      RegisterMessage valueLib NewGoGoProtobufCodec (some (.addr (.data 7 [2])))
        = .ret (c1, none)) ∧
    RegisterMessage valueLib NewGoGoProtobufCodec (some (.nilptr (.named 7)))
      = .panic .typeOnZeroValue := by
  refine ⟨rfl, rfl, rfl, rfl, ⟨_, rfl, rfl⟩, rfl⟩

end Codec
